import Mathlib

/-!
Verification development for the architectural-synthesis stage of a PHP
migration toolkit (`scripts/generate_architectural_synthesis.py`).

The Python code is shallowly embedded as executable Lean definitions:

* Python `dict`s (which preserve insertion order) are modelled as
  association lists whose entry order is the insertion order; assignment
  to an existing key keeps the position of that key.
* Python `set`s are modelled as duplicate-free lists in insertion order;
  every consumer of a set in the source either sorts it, sums over it, or
  tests membership, so the modelled order never leaks into results.
* Python `sorted`/`list.sort` (a stable sort; `reverse=True` keeps ties in
  original order) is modelled by the stable insertion sort `pySort` below.
* Machine integers are modelled by `Int`/`Nat` (Python ints are unbounded).
* The float ratio `common/min` of the coupling analyzer is modelled by the
  exact rational; for the small file counts the analyzer sees, the float
  comparisons against the literals 0.8 and 0.5 agree with the exact
  rational comparisons, which the definitions implement as
  cross-multiplications so that the kernel can evaluate them.
-/

/-! ### Stable sort, modelling Python `sorted` -/

/-- Insert `a` into `l` before the first element `b` with `lt a b`; this is
one step of a stable insertion sort. -/
def insertStable (lt : α → α → Bool) (a : α) : List α → List α
  | [] => [a]
  | b :: bs => if lt a b then a :: b :: bs else b :: insertStable lt a bs

/-- Stable sort by the strict comparison `lt`: the unique output that is
sorted and keeps elements that compare equal in their original order.
Python `sorted(xs, key=k)` is `pySort (fun a b => k a < k b) xs`, and
`sorted(xs, key=k, reverse=True)` is `pySort (fun a b => k b < k a) xs`. -/
def pySort (lt : α → α → Bool) (l : List α) : List α :=
  l.foldl (fun acc a => insertStable lt a acc) []

theorem insertStable_perm (lt : α → α → Bool) (a : α) (l : List α) :
    (insertStable lt a l).Perm (a :: l) := by
  induction l with
  | nil => simp [insertStable]
  | cons b bs ih =>
    simp only [insertStable]
    split
    · exact List.Perm.refl _
    · exact (ih.cons b).trans (List.Perm.swap a b bs)

theorem mem_insertStable {lt : α → α → Bool} {a x : α} {l : List α} :
    x ∈ insertStable lt a l ↔ x = a ∨ x ∈ l := by
  rw [(insertStable_perm lt a l).mem_iff, List.mem_cons]

theorem pySort_perm (lt : α → α → Bool) (l : List α) : (pySort lt l).Perm l := by
  suffices h : ∀ (l : List α) (acc : List α),
      (List.foldl (fun acc a => insertStable lt a acc) acc l).Perm (acc ++ l) by
    simpa using h l []
  intro l
  induction l with
  | nil => simp
  | cons a as ih =>
    intro acc
    exact (ih _).trans
      (((insertStable_perm lt a acc).append_right as).trans List.perm_middle.symm)

theorem mem_pySort {lt : α → α → Bool} {x : α} {l : List α} :
    x ∈ pySort lt l ↔ x ∈ l :=
  (pySort_perm lt l).mem_iff

theorem pairwise_insertStable {lt : α → α → Bool}
    (hasym : ∀ x y, lt x y = true → lt y x = false)
    (htrans : ∀ x y z, lt x y = true → lt y z = true → lt x z = true)
    {l : List α} (a : α) (hl : l.Pairwise (fun x y => lt y x = false)) :
    (insertStable lt a l).Pairwise (fun x y => lt y x = false) := by
  induction l with
  | nil => simp [insertStable]
  | cons b bs ih =>
    rcases List.pairwise_cons.mp hl with ⟨hb, hbs⟩
    simp only [insertStable]
    split
    · rename_i hab
      refine List.pairwise_cons.mpr ⟨?_, hl⟩
      intro y hy
      rcases List.mem_cons.mp hy with rfl | hy
      · exact hasym _ _ hab
      · rcases Bool.eq_false_or_eq_true (lt y a) with h | h
        · exact absurd (htrans _ _ _ h hab) (by simp [hb y hy])
        · exact h
    · rename_i hab
      refine List.pairwise_cons.mpr ⟨?_, ih hbs⟩
      intro y hy
      rcases mem_insertStable.mp hy with rfl | hy
      · simpa using hab
      · exact hb y hy

theorem pairwise_pySort {lt : α → α → Bool}
    (hasym : ∀ x y, lt x y = true → lt y x = false)
    (htrans : ∀ x y z, lt x y = true → lt y z = true → lt x z = true)
    (l : List α) :
    (pySort lt l).Pairwise (fun x y => lt y x = false) := by
  suffices h : ∀ (l acc : List α), acc.Pairwise (fun x y => lt y x = false) →
      (List.foldl (fun acc a => insertStable lt a acc) acc l).Pairwise
        (fun x y => lt y x = false) by
    exact h l [] (by simp)
  intro l
  induction l with
  | nil => exact fun acc h => h
  | cons a as ih =>
    intro acc hacc
    exact ih _ (pairwise_insertStable hasym htrans a hacc)

/-! ### Character-list string utilities

`String.splitOn`, `String.toLower`, `String.replace` and friends do not
reduce inside the kernel, so the embedding re-implements the handful of
string operations the Python code uses as structural recursions over
`List Char`. -/

/-- Lexicographic strict comparison of strings by code point, the order
that Python string comparison (and hence `sorted` on strings) uses. -/
def ltCharList : List Char → List Char → Bool
  | [], [] => false
  | [], _ :: _ => true
  | _ :: _, [] => false
  | a :: as, b :: bs =>
    if a.toNat < b.toNat then true
    else if b.toNat < a.toNat then false
    else ltCharList as bs

/-- Python string `<`. -/
def pyStrLt (a b : String) : Bool := ltCharList a.data b.data

/-- Python `sorted` on a list of strings. -/
def sortStrings (l : List String) : List String := pySort pyStrLt l

/-- Python `str.lower()` (per-character lowercasing). -/
def lowerStr (s : String) : String := String.mk (s.data.map Char.toLower)

/-- Split a character list at every occurrence of `c`; like Python
`str.split(sep)` with a single-character separator (so the result is
never empty, and splitting the empty string yields one empty part). -/
def splitCharList (c : Char) : List Char → List (List Char)
  | [] => [[]]
  | x :: xs =>
    match splitCharList c xs with
    | [] => [[]]
    | g :: gs => if x == c then [] :: g :: gs else (x :: g) :: gs

/-- Python `os.path.basename` for POSIX paths: the part after the last
slash. -/
def basename (s : String) : String :=
  match (splitCharList '/' s.data).reverse with
  | [] => s
  | g :: _ => String.mk g

/-- The characters after the first space, or the whole list if there is no
space; models Python `s.split(' ', 1)[1]` guarded by `' ' in s`. -/
def afterFirstSpace : List Char → List Char
  | [] => []
  | x :: xs => if x == ' ' then xs else afterFirstSpace xs

/-- Python `s.strip('/')`: drop leading and trailing slashes. -/
def stripSlashes (s : String) : String :=
  String.mk (((s.data.dropWhile (· == '/')).reverse.dropWhile (· == '/')).reverse)

/-- One pass of Python `str.replace(pat, rep)` on character lists, with the
list length as structural fuel (each step consumes at least one input
character, so `l.length` fuel is always enough). -/
def replaceAux (pat rep : List Char) : Nat → List Char → List Char
  | _, [] => []
  | 0, l => l
  | fuel + 1, x :: xs =>
    if pat.isPrefixOf (x :: xs) ∧ pat ≠ [] then
      rep ++ replaceAux pat rep fuel (List.drop pat.length (x :: xs))
    else
      x :: replaceAux pat rep fuel xs

/-- Python `str.replace(pat, rep)` (all occurrences, left to right). -/
def replaceStr (s pat rep : String) : String :=
  String.mk (replaceAux pat.data rep.data s.data.length s.data)

/-- Whether `needle` occurs as a contiguous infix of `hay`; Python
`needle in hay` on strings. -/
def infixCharList (needle : List Char) : List Char → Bool
  | [] => needle.isEmpty
  | x :: xs => needle.isPrefixOf (x :: xs) || infixCharList needle xs

/-- Python `sub in s` substring test. -/
def strContains (s sub : String) : Bool := infixCharList sub.data s.data

/-- A single-quote character as a string (used when rendering Python
`str(list)` output, keeping quote characters out of the source text). -/
def singleQuote : String := String.mk [Char.ofNat 39]

/-- Python `str(xs)` for a list of strings `xs` (the repr used by the
hotspot recommendation heuristic), assuming no element contains a quote. -/
def pyStrOfList (xs : List String) : String :=
  "[" ++ String.intercalate ", " (xs.map (fun s => singleQuote ++ s ++ singleQuote)) ++ "]"

/-! ### Association lists, modelling Python dicts and sets -/

/-- Look up a key in an association list, with a default: Python
`d.get(k, dflt)` (and `d[k]` when the key is present). -/
def lookupD (m : List (String × α)) (k : String) (dflt : α) : α :=
  match m with
  | [] => dflt
  | (k2, v) :: rest => if k2 == k then v else lookupD rest k dflt

/-- Whether the key is present: Python `k in d`. -/
def hasKey (m : List (String × α)) (k : String) : Bool :=
  match m with
  | [] => false
  | (k2, _) :: rest => k2 == k || hasKey rest k

/-- Python `defaultdict` update `d[k] = f d[k]` with default `dflt`:
apply `f` to the current value of `k` (creating the entry if absent). -/
def assocUpdate (m : List (String × α)) (k : String) (dflt : α) (f : α → α) :
    List (String × α) :=
  match m with
  | [] => [(k, f dflt)]
  | (k2, v2) :: rest =>
    if k2 == k then (k2, f v2) :: rest else (k2, v2) :: assocUpdate rest k dflt f

/-- Python dict assignment `d[k] = v`: update in place if the key exists
(keeping its position), otherwise append a new entry. -/
def assocPut (m : List (String × α)) (k : String) (v : α) : List (String × α) :=
  assocUpdate m k v (fun _ => v)

/-- Add an element to a modelled set (a duplicate-free list): Python
`s.add(x)`. -/
def setAdd (s : List String) (x : String) : List String :=
  if s.contains x then s else s ++ [x]

/-- Union a list of new elements into a modelled set: Python
`s.update(xs)` / `set(xs)` when starting from the empty set. -/
def setUnion (s : List String) (xs : List String) : List String :=
  xs.foldl setAdd s

/-- Python `defaultdict(set)` insertion `d[k].add(v)`. -/
def mapAddToSet (m : List (String × List String)) (k v : String) :
    List (String × List String) :=
  assocUpdate m k [] (fun s => setAdd s v)

/-- Python `defaultdict(list)` insertion `d[k].append(v)`. -/
def mapAppend (m : List (String × List String)) (k v : String) :
    List (String × List String) :=
  assocUpdate m k [] (fun s => s ++ [v])

/-- Python `defaultdict(int)` bump `d[k] += n`. -/
def bumpBy (m : List (String × Int)) (k : String) (n : Int) : List (String × Int) :=
  assocUpdate m k 0 (fun v => v + n)

/-- Remove a key from an association list: the effect of Python
`d.pop(k, dflt)` on `d`. -/
def removeKey (m : List (String × α)) (k : String) : List (String × α) :=
  m.filter (fun p => !(p.1 == k))

theorem lookupD_assocUpdate_self (m : List (String × α)) (k : String) (dflt d2 : α)
    (f : α → α) : lookupD (assocUpdate m k dflt f) k d2 = f (lookupD m k dflt) := by
  induction m with
  | nil => simp [assocUpdate, lookupD]
  | cons p rest ih =>
    obtain ⟨k2, v2⟩ := p
    by_cases h : k2 = k
    · subst h; simp [assocUpdate, lookupD]
    · simp [assocUpdate, lookupD, h, ih]

theorem lookupD_assocUpdate_ne (m : List (String × α)) {k k2 : String} (dflt d2 : α)
    (f : α → α) (hne : k2 ≠ k) :
    lookupD (assocUpdate m k dflt f) k2 d2 = lookupD m k2 d2 := by
  induction m with
  | nil => simp [assocUpdate, lookupD, Ne.symm hne]
  | cons p rest ih =>
    obtain ⟨ka, va⟩ := p
    by_cases h : ka = k
    · subst h
      simp [assocUpdate, lookupD, Ne.symm hne]
    · by_cases h2 : ka = k2
      · subst h2; simp [assocUpdate, lookupD, h]
      · simp [assocUpdate, lookupD, h, h2, ih]

theorem hasKey_assocUpdate (m : List (String × α)) (k k2 : String) (dflt : α)
    (f : α → α) :
    hasKey (assocUpdate m k dflt f) k2 = (hasKey m k2 || k == k2) := by
  induction m with
  | nil => simp [assocUpdate, hasKey, BEq.comm]
  | cons p rest ih =>
    obtain ⟨ka, va⟩ := p
    by_cases h : ka = k
    · subst h
      by_cases h2 : ka = k2 <;> simp [assocUpdate, hasKey, h2]
    · simp [assocUpdate, hasKey, h, ih, Bool.or_assoc]

theorem mem_setAdd {s : List String} {x y : String} :
    y ∈ setAdd s x ↔ y ∈ s ∨ y = x := by
  unfold setAdd
  split
  · rename_i h
    simp only [List.contains, List.elem_iff] at h
    constructor
    · exact Or.inl
    · rintro (hy | rfl)
      · exact hy
      · exact h
  · simp

theorem nodup_setAdd {s : List String} (h : s.Nodup) (x : String) :
    (setAdd s x).Nodup := by
  unfold setAdd
  split
  · exact h
  · rename_i hc
    simp only [List.contains, List.elem_iff] at hc
    simpa [List.nodup_append] using ⟨h, hc⟩

theorem mem_setUnion {s xs : List String} {y : String} :
    y ∈ setUnion s xs ↔ y ∈ s ∨ y ∈ xs := by
  induction xs generalizing s with
  | nil => simp [setUnion]
  | cons a as ih =>
    simp only [setUnion, List.foldl_cons] at ih ⊢
    rw [ih, mem_setAdd]
    simp only [List.mem_cons]
    tauto

theorem nodup_setUnion {s xs : List String} (h : s.Nodup) :
    (setUnion s xs).Nodup := by
  induction xs generalizing s with
  | nil => simpa [setUnion]
  | cons a as ih =>
    simp only [setUnion, List.foldl_cons] at ih ⊢
    exact ih (nodup_setAdd h a)

/-! ### Data model

The record types mirror the dataclasses of
`generate_architectural_synthesis.py` field by field. -/

/-- Dataclass `ModuleRecommendation`: a recommended module with rationale. -/
structure ModuleRecommendation where
  name : String
  rationale : String
  routes : List String
  tables : List String
  php_files : List String
  complexity_score : Int
  security_issues : Int
  lines_of_code : Int
  priority : Int
  dependencies : List String
  is_microservice : Bool
  migration_risk : String
  estimated_effort : String
deriving DecidableEq, Repr

/-- Dataclass `DataCoupling`: data coupling between two tables. -/
structure DataCoupling where
  tables : List String
  coupling_strength : String
  accessed_by_files : List String
  recommendation : String
deriving DecidableEq, Repr

/-- Dataclass `SecurityHotspot`: a file with concentrated security issues. -/
structure SecurityHotspot where
  file : String
  issues : List (String × Int)
  total_issues : Int
  severity_score : Int
  recommendation : String
deriving DecidableEq, Repr

/-- One entry of the `migration_order` list built by
`compute_migration_order` (the dict literal at its loop body). -/
structure MigrationStep where
  step : Nat
  module : String
  is_microservice : Bool
  risk : String
  effort : String
  dependencies : List String
  routes_count : Nat
  tables_count : Nat
  security_issues : Int
  rationale : String
deriving DecidableEq, Repr

/-! ### `compute_migration_order` -/

/-- The `ready` filter: modules whose dependencies are all migrated
(`[m for m in remaining if all(d in migrated for d in m.dependencies)]`). -/
def readyFilter (remaining : List ModuleRecommendation) (migrated : List String) :
    List ModuleRecommendation :=
  remaining.filter (fun m => m.dependencies.all (fun d => migrated.contains d))

/-- Strict comparison for the cycle-breaking fallback sort, the
lexicographic order on the key `(m.migration_risk != 'low',
m.complexity_score)` (Python compares `False < True` first). -/
def cycleBreakLt (a b : ModuleRecommendation) : Bool :=
  let ka := a.migration_risk != "low"
  let kb := b.migration_risk != "low"
  (!ka && kb) || (ka == kb && a.complexity_score < b.complexity_score)

/-- Strict comparison for `ready.sort(key=lambda m: m.priority)`. -/
def priorityLt (a b : ModuleRecommendation) : Bool :=
  a.priority < b.priority

/-- One iteration of the `while remaining` loop: compute `ready`, fall back
to the lowest-risk module when `ready` is empty, then take the module of
lowest priority. Returns `none` exactly when `remaining` is empty. -/
def chooseNext (remaining : List ModuleRecommendation) (migrated : List String) :
    Option ModuleRecommendation :=
  let ready := readyFilter remaining migrated
  let ready2 := if ready.isEmpty then (pySort cycleBreakLt remaining).take 1 else ready
  (pySort priorityLt ready2).head?

/-- The `while remaining` loop of `compute_migration_order`, with fuel.
Each iteration removes the chosen module from `remaining`
(`remaining.remove(next_module)` removes the first equal element, which
`List.erase` models) and adds its name to `migrated`, so
`remaining.length` fuel runs the loop to completion. -/
def migrationGoFuel : Nat → List ModuleRecommendation → List String →
    List ModuleRecommendation
  | 0, _, _ => []
  | fuel + 1, remaining, migrated =>
    match chooseNext remaining migrated with
    | none => []
    | some m => m :: migrationGoFuel fuel (remaining.erase m) (m.name :: migrated)

/-- The dict appended to `migration_order` for the module chosen at
position `idx` (`"step": len(migration_order) + 1`). -/
def migrationStepOf (idx : Nat) (m : ModuleRecommendation) : MigrationStep :=
  { step := idx + 1
    module := m.name
    is_microservice := m.is_microservice
    risk := m.migration_risk
    effort := m.estimated_effort
    dependencies := m.dependencies
    routes_count := m.routes.length
    tables_count := m.tables.length
    security_issues := m.security_issues
    rationale := m.rationale }

/-- `ArchitecturalSynthesizer.compute_migration_order`, as a function of
`self.module_recommendations`. -/
def compute_migration_order (mods : List ModuleRecommendation) : List MigrationStep :=
  (migrationGoFuel mods.length mods []).enum.map (fun p => migrationStepOf p.1 p.2)

theorem chooseNext_mem {remaining : List ModuleRecommendation} {migrated : List String}
    {m : ModuleRecommendation} (h : chooseNext remaining migrated = some m) :
    m ∈ remaining := by
  unfold chooseNext at h
  have hm : m ∈ pySort priorityLt
      (if (readyFilter remaining migrated).isEmpty then
        (pySort cycleBreakLt remaining).take 1
      else readyFilter remaining migrated) := by
    exact List.mem_of_mem_head? (by simpa using h)
  rw [mem_pySort] at hm
  split at hm
  · exact mem_pySort.mp (List.mem_of_mem_take hm)
  · exact List.mem_of_mem_filter hm

theorem chooseNext_eq_none {remaining : List ModuleRecommendation}
    {migrated : List String} (h : chooseNext remaining migrated = none) :
    remaining = [] := by
  unfold chooseNext at h
  rw [List.head?_eq_none_iff] at h
  have h2 : (if (readyFilter remaining migrated).isEmpty then
      (pySort cycleBreakLt remaining).take 1
    else readyFilter remaining migrated) = [] := by
    have hp := pySort_perm priorityLt
      (if (readyFilter remaining migrated).isEmpty then
        (pySort cycleBreakLt remaining).take 1
      else readyFilter remaining migrated)
    rw [h] at hp
    exact hp.symm.eq_nil
  split at h2
  · rename_i hempty
    have h3 : pySort cycleBreakLt remaining = [] := by
      rcases List.take_eq_nil_iff.mp h2 with h3 | h3
      · omega
      · exact h3
    have hp := pySort_perm cycleBreakLt remaining
    rw [h3] at hp
    exact hp.symm.eq_nil
  · rename_i hempty
    exact absurd (by simp [h2]) hempty

theorem migrationGoFuel_perm :
    ∀ (fuel : Nat) (remaining : List ModuleRecommendation) (migrated : List String),
      remaining.length ≤ fuel →
      (migrationGoFuel fuel remaining migrated).Perm remaining := by
  intro fuel
  induction fuel with
  | zero =>
    intro remaining migrated h
    rw [Nat.le_zero, List.length_eq_zero] at h
    simp [h, migrationGoFuel]
  | succ n ih =>
    intro remaining migrated h
    rw [migrationGoFuel]
    cases hc : chooseNext remaining migrated with
    | none => simp [chooseNext_eq_none hc]
    | some m =>
      have hm := chooseNext_mem hc
      have hlen : (remaining.erase m).length ≤ n := by
        rw [List.length_erase_of_mem hm]
        omega
      exact ((ih _ _ hlen).cons m).trans (List.perm_cons_erase hm).symm

theorem compute_migration_order_modules (mods : List ModuleRecommendation) :
    (compute_migration_order mods).map MigrationStep.module
      = (migrationGoFuel mods.length mods []).map ModuleRecommendation.name := by
  unfold compute_migration_order
  rw [List.map_map]
  have h : (MigrationStep.module ∘ fun p : Nat × ModuleRecommendation =>
      migrationStepOf p.1 p.2) = (ModuleRecommendation.name ∘ Prod.snd) := rfl
  rw [h, ← List.map_map, List.enum_map_snd]

/-- C1: for every finite list of module recommendations with distinct
names — whatever their dependency sets, cyclic ones included — the
migration order computed by `compute_migration_order` exists (the loop
runs to completion within `mods.length` iterations by construction) and
its module names are a duplicate-free permutation of all module names,
with length equal to the module count. -/
theorem migration_order_complete_permutation (mods : List ModuleRecommendation)
    (h : (mods.map ModuleRecommendation.name).Nodup) :
    ((compute_migration_order mods).map MigrationStep.module).Perm
        (mods.map ModuleRecommendation.name) ∧
      ((compute_migration_order mods).map MigrationStep.module).Nodup ∧
      (compute_migration_order mods).length = mods.length := by
  have hperm := migrationGoFuel_perm mods.length mods [] le_rfl
  have hmap := compute_migration_order_modules mods
  refine ⟨?_, ?_, ?_⟩
  · rw [hmap]
    exact hperm.map _
  · rw [hmap]
    exact ((hperm.map ModuleRecommendation.name).nodup_iff).mpr h
  · have : (compute_migration_order mods).length
        = ((compute_migration_order mods).map MigrationStep.module).length := by
      simp
    rw [this, hmap, List.length_map]
    exact hperm.length_eq

/-- Witness modules for the migration-order theorems: a two-module cyclic
dependency (`x` needs `y`, `y` needs `x`). -/
def witModX : ModuleRecommendation :=
  { name := "x", rationale := "", routes := [], tables := [], php_files := []
    complexity_score := 1, security_issues := 0, lines_of_code := 0
    priority := 1, dependencies := ["y"], is_microservice := false
    migration_risk := "high", estimated_effort := "small" }

/-- Second witness module of the cyclic pair. -/
def witModY : ModuleRecommendation :=
  { name := "y", rationale := "", routes := [], tables := [], php_files := []
    complexity_score := 2, security_issues := 0, lines_of_code := 0
    priority := 2, dependencies := ["x"], is_microservice := false
    migration_risk := "low", estimated_effort := "small" }

theorem migration_order_complete_permutation_witness :
    (([witModX, witModY].map ModuleRecommendation.name).Nodup) ∧
      (((compute_migration_order [witModX, witModY]).map MigrationStep.module).Perm
          ([witModX, witModY].map ModuleRecommendation.name) ∧
        ((compute_migration_order [witModX, witModY]).map MigrationStep.module).Nodup ∧
        (compute_migration_order [witModX, witModY]).length = [witModX, witModY].length) :=
  ⟨by decide, migration_order_complete_permutation [witModX, witModY] (by decide)⟩

/-! ### The module dependency relation and the ordering guarantee (C2) -/

/-- The dependency relation on module names induced by a list of module
recommendations: `depNm mods x y` holds when some module named `x` lists
`y` in its `dependencies`. -/
def depNm (mods : List ModuleRecommendation) (x y : String) : Prop :=
  ∃ m, m ∈ mods ∧ m.name = x ∧ y ∈ m.dependencies

/-- When the `ready` filter comes back empty, every remaining module has an
unmigrated dependency, and following such dependencies from any remaining
module must eventually revisit a name: a dependency cycle is reachable
from every remaining module. -/
theorem readyFilter_empty_reaches_cycle
    (mods remaining : List ModuleRecommendation) (migrated : List String)
    (hsub : ∀ x ∈ remaining, x ∈ mods)
    (hclosed : ∀ m ∈ remaining, ∀ d ∈ m.dependencies,
        d ∈ migrated ∨ d ∈ remaining.map ModuleRecommendation.name)
    (hready : readyFilter remaining migrated = [])
    (M : ModuleRecommendation) (hM : M ∈ remaining) :
    ∃ c, Relation.ReflTransGen (depNm mods) M.name c ∧
      Relation.TransGen (depNm mods) c c := by
  have hstep : ∀ m, m ∈ remaining →
      ∃ m2, m2 ∈ remaining ∧ depNm mods m.name m2.name := by
    intro m hm
    have hfail := List.filter_eq_nil_iff.mp hready m hm
    rw [List.all_eq_true] at hfail
    push_neg at hfail
    obtain ⟨d, hd, hnc⟩ := hfail
    have hdnm : d ∉ migrated := by
      simpa [List.contains, List.elem_iff] using hnc
    rcases hclosed m hm d hd with hmig | hname
    · exact absurd hmig hdnm
    · obtain ⟨m2, hm2, hm2name⟩ := List.mem_map.mp hname
      exact ⟨m2, hm2, ⟨m, hsub m hm, rfl, hm2name ▸ hd⟩⟩
  have hstep2 : ∀ m : ModuleRecommendation,
      ∃ m2, m ∈ remaining → (m2 ∈ remaining ∧ depNm mods m.name m2.name) := by
    intro m
    by_cases hm : m ∈ remaining
    · obtain ⟨m2, h⟩ := hstep m hm
      exact ⟨m2, fun _ => h⟩
    · exact ⟨m, fun h => absurd h hm⟩
  choose g hg using hstep2
  have humem : ∀ k, g^[k] M ∈ remaining := by
    intro k
    induction k with
    | zero => simpa using hM
    | succ p ihp =>
      rw [Function.iterate_succ_apply']
      exact (hg _ ihp).1
  have hudep : ∀ k, depNm mods (g^[k] M).name (g^[k + 1] M).name := by
    intro k
    rw [Function.iterate_succ_apply']
    exact (hg _ (humem k)).2
  have hreach : ∀ k, Relation.ReflTransGen (depNm mods) M.name (g^[k] M).name := by
    intro k
    induction k with
    | zero => exact Relation.ReflTransGen.refl
    | succ p ihp => exact ihp.tail (hudep p)
  have htg : ∀ a k, Relation.TransGen (depNm mods)
      (g^[a] M).name (g^[a + k + 1] M).name := by
    intro a k
    induction k with
    | zero => exact Relation.TransGen.single (hudep a)
    | succ p ihp =>
      have hidx : a + (p + 1) + 1 = (a + p + 1) + 1 := by omega
      rw [hidx]
      exact ihp.tail (hudep (a + p + 1))
  have hmapsto : ∀ k ∈ Finset.range (remaining.length + 1),
      (g^[k] M).name ∈ (remaining.map ModuleRecommendation.name).toFinset := by
    intro k _
    rw [List.mem_toFinset]
    exact List.mem_map_of_mem _ (humem k)
  have hcard : ((remaining.map ModuleRecommendation.name).toFinset).card
      < (Finset.range (remaining.length + 1)).card := by
    rw [Finset.card_range]
    calc ((remaining.map ModuleRecommendation.name).toFinset).card
        ≤ (remaining.map ModuleRecommendation.name).length :=
          List.toFinset_card_le _
      _ = remaining.length := List.length_map _ _
      _ < remaining.length + 1 := Nat.lt_succ_self _
  obtain ⟨i, _, j, _, hij, heq⟩ :=
    Finset.exists_ne_map_eq_of_card_lt_of_maps_to hcard hmapsto
  have haux : ∀ a b : Nat, a < b → (g^[a] M).name = (g^[b] M).name →
      ∃ c, Relation.ReflTransGen (depNm mods) M.name c ∧
        Relation.TransGen (depNm mods) c c := by
    intro a b hab hnames
    refine ⟨(g^[a] M).name, hreach a, ?_⟩
    have hb : b = a + (b - a - 1) + 1 := by omega
    have ht := htg a (b - a - 1)
    rw [← hb] at ht
    rw [hnames] at ht ⊢
    exact ht
  rcases hij.lt_or_lt with hlt | hlt
  · exact haux i j hlt heq
  · exact haux j i hlt heq.symm

/-- Main induction for the dependency-ordering property: if no dependency
cycle is reachable from module `M` (along the dependency relation of the
full module list), then in each suffix of the migration loop in which `M`
is still remaining and its dependency `d` is still unmigrated, the module
named `d` is emitted strictly before `M`. -/
theorem migrationGoFuel_dep_before
    (mods : List ModuleRecommendation) (M : ModuleRecommendation)
    (hac : ∀ c, Relation.ReflTransGen (depNm mods) M.name c →
        ¬ Relation.TransGen (depNm mods) c c) :
    ∀ (fuel : Nat) (remaining : List ModuleRecommendation) (migrated : List String),
      remaining.length ≤ fuel →
      (∀ x ∈ remaining, x ∈ mods) →
      (remaining.map ModuleRecommendation.name).Nodup →
      (∀ m ∈ remaining, ∀ d2 ∈ m.dependencies,
          d2 ∈ migrated ∨ d2 ∈ remaining.map ModuleRecommendation.name) →
      M ∈ remaining →
      ∀ d ∈ M.dependencies, d ∉ migrated →
      [d, M.name].Sublist
        ((migrationGoFuel fuel remaining migrated).map ModuleRecommendation.name) := by
  intro fuel
  induction fuel with
  | zero =>
    intro remaining migrated hlen _ _ _ hM _ _ _
    rw [Nat.le_zero, List.length_eq_zero] at hlen
    exact absurd (hlen ▸ hM) (List.not_mem_nil M)
  | succ n ih =>
    intro remaining migrated hlen hsub hnodup hclosed hM d hd hdm
    rw [migrationGoFuel]
    cases hc : chooseNext remaining migrated with
    | none => exact absurd (chooseNext_eq_none hc ▸ hM) (List.not_mem_nil M)
    | some ch =>
      have hchmem := chooseNext_mem hc
      have hdMname : d ≠ M.name := by
        intro hdM
        exact hac M.name Relation.ReflTransGen.refl
          (Relation.TransGen.single ⟨M, hsub M hM, rfl, hdM ▸ hd⟩)
      by_cases hchM : ch = M
      · exfalso
        subst hchM
        by_cases hre : readyFilter remaining migrated = []
        · obtain ⟨c, hrc, hcc⟩ := readyFilter_empty_reaches_cycle mods remaining
            migrated hsub hclosed hre ch hM
          exact hac c hrc hcc
        · have hch2 : ch ∈ readyFilter remaining migrated := by
            have hc2 : (pySort priorityLt (readyFilter remaining migrated)).head?
                = some ch := by
              unfold chooseNext at hc
              simpa [List.isEmpty_iff, hre] using hc
            exact mem_pySort.mp (List.mem_of_mem_head? (Option.mem_def.mpr hc2))
          have hall := (List.mem_filter.mp hch2).2
          rw [List.all_eq_true] at hall
          have := hall d hd
          simp only [List.contains, List.elem_iff] at this
          exact hdm this
      · have hM2 : M ∈ remaining.erase ch :=
          (List.mem_erase_of_ne (Ne.symm hchM)).mpr hM
        have hperm : remaining.Perm (ch :: remaining.erase ch) :=
          List.perm_cons_erase hchmem
        have hnames : (remaining.map ModuleRecommendation.name).Perm
            (ch.name :: (remaining.erase ch).map ModuleRecommendation.name) := by
          simpa using hperm.map ModuleRecommendation.name
        have hlen2 : (remaining.erase ch).length ≤ n := by
          rw [List.length_erase_of_mem hchmem]
          omega
        have hsub2 : ∀ x ∈ remaining.erase ch, x ∈ mods :=
          fun x hx => hsub x (List.mem_of_mem_erase hx)
        have hnodup2 : ((remaining.erase ch).map ModuleRecommendation.name).Nodup :=
          (List.nodup_cons.mp (hnames.nodup_iff.mp hnodup)).2
        have hclosed2 : ∀ m ∈ remaining.erase ch, ∀ d2 ∈ m.dependencies,
            d2 ∈ ch.name :: migrated ∨
              d2 ∈ (remaining.erase ch).map ModuleRecommendation.name := by
          intro m hm d2 hd2
          rcases hclosed m (List.mem_of_mem_erase hm) d2 hd2 with h | h
          · exact Or.inl (List.mem_cons_of_mem _ h)
          · rcases List.mem_cons.mp (hnames.mem_iff.mp h) with h2 | h2
            · exact Or.inl (h2 ▸ List.mem_cons_self _ _)
            · exact Or.inr h2
        simp only [List.map_cons]
        by_cases hchd : ch.name = d
        · subst hchd
          have hMn : M.name ∈ (migrationGoFuel n (remaining.erase ch)
              (ch.name :: migrated)).map ModuleRecommendation.name :=
            ((migrationGoFuel_perm n _ _ hlen2).map
              ModuleRecommendation.name).mem_iff.mpr (List.mem_map_of_mem _ hM2)
          exact (List.singleton_sublist.mpr hMn).cons₂ ch.name
        · have hdm2 : d ∉ ch.name :: migrated := by
            intro hmm
            rcases List.mem_cons.mp hmm with h | h
            · exact hchd h.symm
            · exact hdm h
          exact List.Sublist.cons ch.name
            (ih (remaining.erase ch) (ch.name :: migrated) hlen2 hsub2 hnodup2
              hclosed2 hM2 d hd hdm2)

/-- C2 (amended): when module names are distinct, every dependency names
an actual module, and no dependency cycle is reachable from `M` by
following dependencies transitively, then every module named in the
dependency set of `M` appears strictly before `M` in the migration order.
(The reachability condition is genuinely needed: it is not enough that the
directly named dependencies lie on no cycle, see the counterexample.) -/
theorem migration_order_after_acyclic_deps
    (mods : List ModuleRecommendation) (M : ModuleRecommendation)
    (hnodup : (mods.map ModuleRecommendation.name).Nodup)
    (hdeps : ∀ m ∈ mods, ∀ d2 ∈ m.dependencies,
        d2 ∈ mods.map ModuleRecommendation.name)
    (hM : M ∈ mods)
    (hac : ∀ c, Relation.ReflTransGen (depNm mods) M.name c →
        ¬ Relation.TransGen (depNm mods) c c)
    (d : String) (hd : d ∈ M.dependencies) :
    [d, M.name].Sublist ((compute_migration_order mods).map MigrationStep.module) := by
  rw [compute_migration_order_modules]
  exact migrationGoFuel_dep_before mods M hac mods.length mods [] le_rfl
    (fun x hx => hx) hnodup (fun m hm d2 hd2 => Or.inr (hdeps m hm d2 hd2)) hM d hd
    (by simp)

/-- Witness module `a` (no dependencies). -/
def c2wA : ModuleRecommendation :=
  { name := "a", rationale := "", routes := [], tables := [], php_files := []
    complexity_score := 0, security_issues := 0, lines_of_code := 0
    priority := 1, dependencies := [], is_microservice := false
    migration_risk := "low", estimated_effort := "small" }

/-- Witness module `b`, depending on `a`. -/
def c2wB : ModuleRecommendation :=
  { name := "b", rationale := "", routes := [], tables := [], php_files := []
    complexity_score := 0, security_issues := 0, lines_of_code := 0
    priority := 2, dependencies := ["a"], is_microservice := false
    migration_risk := "low", estimated_effort := "small" }

theorem depNm_c2wit {x y : String} (h : depNm [c2wA, c2wB] x y) :
    x = "b" ∧ y = "a" := by
  obtain ⟨m, hm, rfl, hd⟩ := h
  rcases List.mem_cons.mp hm with rfl | hm2
  · exact absurd hd (by simp [c2wA])
  · rcases List.mem_cons.mp hm2 with rfl | hm3
    · refine ⟨by decide, ?_⟩
      simpa [c2wB] using hd
    · exact absurd hm3 (List.not_mem_nil m)

theorem migration_order_after_acyclic_deps_witness :
    "a" ∈ c2wB.dependencies ∧
      ["a", "b"].Sublist
        ((compute_migration_order [c2wA, c2wB]).map MigrationStep.module) := by
  have hnocycle : ∀ c, ¬ Relation.TransGen (depNm [c2wA, c2wB]) c c := by
    intro c hc
    rw [Relation.TransGen.head'_iff] at hc
    obtain ⟨b, hcb, hrest⟩ := hc
    obtain ⟨rfl, rfl⟩ := depNm_c2wit hcb
    rcases Relation.ReflTransGen.cases_head hrest with h | ⟨e, hae, _⟩
    · exact absurd h (by decide)
    · exact absurd (depNm_c2wit hae).1 (by decide)
  refine ⟨by decide, ?_⟩
  have := migration_order_after_acyclic_deps [c2wA, c2wB] c2wB (by decide)
    (by decide) (by decide) (fun c _ => hnocycle c) "a" (by decide)
  simpa using this

/-- Counterexample module `x` for the literal reading of C2: `x` and `y`
form a dependency cycle. -/
def c2cxX : ModuleRecommendation :=
  { name := "x", rationale := "", routes := [], tables := [], php_files := []
    complexity_score := 1, security_issues := 0, lines_of_code := 0
    priority := 1, dependencies := ["y"], is_microservice := false
    migration_risk := "high", estimated_effort := "small" }

/-- Counterexample module `y`: the other half of the cycle. -/
def c2cxY : ModuleRecommendation :=
  { name := "y", rationale := "", routes := [], tables := [], php_files := []
    complexity_score := 1, security_issues := 0, lines_of_code := 0
    priority := 2, dependencies := ["x"], is_microservice := false
    migration_risk := "high", estimated_effort := "small" }

/-- Counterexample module `z`: depends on the cycle but lies on no cycle
itself. -/
def c2cxZ : ModuleRecommendation :=
  { name := "z", rationale := "", routes := [], tables := [], php_files := []
    complexity_score := 1, security_issues := 0, lines_of_code := 0
    priority := 3, dependencies := ["x"], is_microservice := false
    migration_risk := "high", estimated_effort := "small" }

/-- Counterexample module `m`: its only dependency `z` lies on no cycle,
yet the cycle-breaking fallback emits `m` first. -/
def c2cxM : ModuleRecommendation :=
  { name := "m", rationale := "", routes := [], tables := [], php_files := []
    complexity_score := 0, security_issues := 0, lines_of_code := 0
    priority := 4, dependencies := ["z"], is_microservice := false
    migration_risk := "low", estimated_effort := "small" }

/-- The module list of the C2 counterexample. -/
def c2cxMods : List ModuleRecommendation := [c2cxX, c2cxY, c2cxZ, c2cxM]

theorem depNm_c2cx {x y : String} (h : depNm c2cxMods x y) :
    (x = "x" ∧ y = "y") ∨ (x = "y" ∧ y = "x") ∨
      (x = "z" ∧ y = "x") ∨ (x = "m" ∧ y = "z") := by
  obtain ⟨m, hm, rfl, hd⟩ := h
  simp only [c2cxMods, List.mem_cons, List.not_mem_nil, or_false] at hm
  rcases hm with rfl | rfl | rfl | rfl
  · exact Or.inl ⟨by decide, by simpa [c2cxX] using hd⟩
  · exact Or.inr (Or.inl ⟨by decide, by simpa [c2cxY] using hd⟩)
  · exact Or.inr (Or.inr (Or.inl ⟨by decide, by simpa [c2cxZ] using hd⟩))
  · exact Or.inr (Or.inr (Or.inr ⟨by decide, by simpa [c2cxM] using hd⟩))

theorem reflTransGen_c2cx_x {c : String}
    (h : Relation.ReflTransGen (depNm c2cxMods) "x" c) : c = "x" ∨ c = "y" := by
  induction h with
  | refl => exact Or.inl rfl
  | tail hab hbc ih =>
    rcases ih with rfl | rfl
    · rcases depNm_c2cx hbc with ⟨_, rfl⟩ | ⟨h1, _⟩ | ⟨h1, _⟩ | ⟨h1, _⟩
      · exact Or.inr rfl
      · exact absurd h1 (by decide)
      · exact absurd h1 (by decide)
      · exact absurd h1 (by decide)
    · rcases depNm_c2cx hbc with ⟨h1, _⟩ | ⟨_, rfl⟩ | ⟨h1, _⟩ | ⟨h1, _⟩
      · exact absurd h1 (by decide)
      · exact Or.inl rfl
      · exact absurd h1 (by decide)
      · exact absurd h1 (by decide)

/-- C2 (counterexample to the literal claim): in `c2cxMods`, module `m`
has the single dependency `z`; `z` lies on no dependency cycle (only `x`
and `y` do); yet the computed migration order emits `m` first, strictly
before `z`. The claim as stated — a module whose dependency set is free of
cyclic modules appears after all its dependencies — is therefore false for
this code: the cycle-breaking fallback can pick such a module early. -/
theorem migration_order_dep_counterexample :
    "z" ∈ c2cxM.dependencies ∧
      ¬ Relation.TransGen (depNm c2cxMods) "z" "z" ∧
      (compute_migration_order c2cxMods).map MigrationStep.module
        = ["m", "x", "y", "z"] := by
  refine ⟨by decide, ?_, by decide⟩
  intro h
  rw [Relation.TransGen.head'_iff] at h
  obtain ⟨b, hzb, hrest⟩ := h
  rcases depNm_c2cx hzb with ⟨h1, _⟩ | ⟨h1, _⟩ | ⟨_, rfl⟩ | ⟨h1, _⟩
  · exact absurd h1 (by decide)
  · exact absurd h1 (by decide)
  · rcases reflTransGen_c2cx_x hrest with h2 | h2 <;> exact absurd h2 (by decide)
  · exact absurd h1 (by decide)

/-! ### `analyze_data_coupling` (coupling analyzer) -/

/-- All ordered pairs `(t1, t2)` with `t1` before `t2` in the list: the
`for i, t1 in enumerate(tables_list): for t2 in tables_list[i+1:]` loops. -/
def pairsOfList : List String → List (String × String)
  | [] => []
  | t :: ts => ts.map (fun t2 => (t, t2)) ++ pairsOfList ts

/-- `table_co_occurrence[pair] += 1` on the insertion-ordered counter
dict. -/
def bumpPair (m : List ((String × String) × Nat)) (p : String × String) :
    List ((String × String) × Nat) :=
  match m with
  | [] => [(p, 1)]
  | (q, c) :: rest => if q == p then (q, c + 1) :: rest else (q, c) :: bumpPair rest p

/-- The `table_co_occurrence` counter: for every file (in dict order),
count each ordered pair of its sorted table list. -/
def tableCoOccurrence (ftt : List (String × List String)) :
    List ((String × String) × Nat) :=
  ftt.foldl (fun acc e => (pairsOfList (sortStrings e.2)).foldl bumpPair acc) []

/-- Comparison for `sorted(table_co_occurrence.items(), key=lambda x: x[1],
reverse=True)`: strictly greater count first, ties stable. -/
def countDescLt (a b : (String × String) × Nat) : Bool :=
  b.2 < a.2

/-- The ratio `common_count / min(t1_total, t2_total)` of the coupling
analyzer, as an exact rational. -/
def couplingRatio (ttf : List (String × List String)) (t1 t2 : String) : ℚ :=
  (((lookupD ttf t1 []).filter (fun f => (lookupD ttf t2 []).contains f)).length : ℚ) /
    ((min (lookupD ttf t1 []).length (lookupD ttf t2 []).length : Nat) : ℚ)

/-- The body of the `for (t1, t2), count in sorted(...)` loop of
`analyze_data_coupling`: keep a pair when its count is at least 2 and both
tables have a nonempty file set, classify the coupling strength, and build
the `DataCoupling`. The float comparisons `ratio >= 0.8` and
`ratio >= 0.5`, with `ratio = common / min(t1_total, t2_total)`, are
embedded as the exact cross-multiplied tests `5*common >= 4*min` and
`2*common >= min` (equivalent for a positive denominator), which the
kernel can evaluate. -/
def mkCouplingEdge (ttf : List (String × List String))
    (p : (String × String) × Nat) : Option DataCoupling :=
  if 2 ≤ p.2 then
    let t1 := p.1.1
    let t2 := p.1.2
    let t1Files := lookupD ttf t1 []
    let t2Files := lookupD ttf t2 []
    let commonFiles := t1Files.filter (fun f => t2Files.contains f)
    if 0 < t1Files.length ∧ 0 < t2Files.length then
      let mn := min t1Files.length t2Files.length
      if 4 * mn ≤ 5 * commonFiles.length then
        some { tables := [t1, t2], coupling_strength := "tight"
               accessed_by_files := sortStrings commonFiles
               recommendation := "Tables " ++ t1 ++ " and " ++ t2 ++
                 " should be in the SAME module/service" }
      else if mn ≤ 2 * commonFiles.length then
        some { tables := [t1, t2], coupling_strength := "moderate"
               accessed_by_files := sortStrings commonFiles
               recommendation := "Consider keeping " ++ t1 ++ " and " ++ t2 ++
                 " in the same module, or use events for sync" }
      else
        some { tables := [t1, t2], coupling_strength := "loose"
               accessed_by_files := sortStrings commonFiles
               recommendation := "Tables " ++ t1 ++ " and " ++ t2 ++
                 " can be in different modules with API calls" }
    else none
  else none

/-- `ArchitecturalSynthesizer.analyze_data_coupling`, as a function of
`self.file_to_tables` and `self.table_to_files`. -/
def analyze_data_coupling (ftt ttf : List (String × List String)) :
    List DataCoupling :=
  (pySort countDescLt (tableCoOccurrence ftt)).filterMap (mkCouplingEdge ttf)

theorem four_fifths_le_ratio {c mn : Nat} (h : 0 < mn) :
    ((4 : ℚ)/5 ≤ (c : ℚ)/(mn : ℚ)) ↔ (4 * mn ≤ 5 * c) := by
  rw [div_le_div_iff₀ (by norm_num) (by exact_mod_cast h)]
  constructor
  · intro hx
    have hq : (4 : ℚ) * mn ≤ 5 * c := by linarith
    exact_mod_cast hq
  · intro hx
    have hq : (4 : ℚ) * mn ≤ 5 * c := by exact_mod_cast hx
    linarith

theorem half_le_ratio {c mn : Nat} (h : 0 < mn) :
    ((1 : ℚ)/2 ≤ (c : ℚ)/(mn : ℚ)) ↔ (mn ≤ 2 * c) := by
  rw [div_le_div_iff₀ (by norm_num) (by exact_mod_cast h)]
  constructor
  · intro hx
    have hq : (mn : ℚ) ≤ 2 * c := by linarith
    exact_mod_cast hq
  · intro hx
    have hq : (mn : ℚ) ≤ 2 * c := by exact_mod_cast hx
    linarith

/-- C3: every coupling edge emitted by `analyze_data_coupling` comes from
an unordered table pair with co-occurrence count at least 2 whose two
tables each have a nonempty accessing-file set, and its strength is
`tight` exactly when the ratio `|files(t1) ∩ files(t2)| /
min(|files(t1)|, |files(t2)|)` is at least `4/5`, `moderate` exactly when
the ratio lies in `[1/2, 4/5)`, and `loose` exactly when it is below
`1/2`, the boundary values `4/5` and `1/2` included as stated. -/
theorem coupling_strength_thresholds (ftt ttf : List (String × List String))
    (e : DataCoupling) (he : e ∈ analyze_data_coupling ftt ttf) :
    ∃ t1 t2 c, e.tables = [t1, t2] ∧ ((t1, t2), c) ∈ tableCoOccurrence ftt ∧
      2 ≤ c ∧ 0 < (lookupD ttf t1 []).length ∧ 0 < (lookupD ttf t2 []).length ∧
      (e.coupling_strength = "tight" ↔ 4/5 ≤ couplingRatio ttf t1 t2) ∧
      (e.coupling_strength = "moderate" ↔
        1/2 ≤ couplingRatio ttf t1 t2 ∧ couplingRatio ttf t1 t2 < 4/5) ∧
      (e.coupling_strength = "loose" ↔ couplingRatio ttf t1 t2 < 1/2) := by
  obtain ⟨p, hp, hmk⟩ := List.mem_filterMap.mp he
  have hp2 : p ∈ tableCoOccurrence ftt := mem_pySort.mp hp
  obtain ⟨⟨t1, t2⟩, c⟩ := p
  unfold mkCouplingEdge at hmk
  dsimp only at hmk
  refine ⟨t1, t2, c, ?_⟩
  split_ifs at hmk with h2 hpos htight hmod
  · -- tight
    obtain rfl := (Option.some.inj hmk).symm
    have hmn : 0 < min (lookupD ttf t1 []).length (lookupD ttf t2 []).length :=
      lt_min hpos.1 hpos.2
    have h45 : (4 : ℚ)/5 ≤ couplingRatio ttf t1 t2 :=
      (four_fifths_le_ratio hmn).mpr htight
    refine ⟨rfl, hp2, h2, hpos.1, hpos.2, ?_, ?_, ?_⟩
    · exact iff_of_true rfl h45
    · refine iff_of_false (by simp) ?_
      rintro ⟨_, hlt⟩
      exact absurd h45 (not_le.mpr hlt)
    · refine iff_of_false (by simp) ?_
      intro hlt
      have : (1 : ℚ)/2 < 4/5 := by norm_num
      linarith
  · -- moderate
    obtain rfl := (Option.some.inj hmk).symm
    have hmn : 0 < min (lookupD ttf t1 []).length (lookupD ttf t2 []).length :=
      lt_min hpos.1 hpos.2
    have hlt45 : couplingRatio ttf t1 t2 < 4/5 :=
      not_le.mp ((four_fifths_le_ratio hmn).not.mpr htight)
    have hge12 : (1 : ℚ)/2 ≤ couplingRatio ttf t1 t2 :=
      (half_le_ratio hmn).mpr hmod
    refine ⟨rfl, hp2, h2, hpos.1, hpos.2, ?_, ?_, ?_⟩
    · refine iff_of_false (by simp) ?_
      intro hge
      exact absurd hge (not_le.mpr hlt45)
    · exact iff_of_true rfl ⟨hge12, hlt45⟩
    · refine iff_of_false (by simp) ?_
      intro hlt
      linarith
  · -- loose
    obtain rfl := (Option.some.inj hmk).symm
    have hmn : 0 < min (lookupD ttf t1 []).length (lookupD ttf t2 []).length :=
      lt_min hpos.1 hpos.2
    have hlt12 : couplingRatio ttf t1 t2 < 1/2 :=
      not_le.mp ((half_le_ratio hmn).not.mpr hmod)
    refine ⟨rfl, hp2, h2, hpos.1, hpos.2, ?_, ?_, ?_⟩
    · refine iff_of_false (by simp) ?_
      intro hge
      have : (1 : ℚ)/2 < 4/5 := by norm_num
      linarith
    · refine iff_of_false (by simp) ?_
      rintro ⟨hge, _⟩
      exact absurd hge (not_le.mpr hlt12)
    · exact iff_of_true rfl hlt12

/-- Witness `file_to_tables` input for the coupling analyzer: two files
that both access tables `t1` and `t2`. -/
def c3ftt : List (String × List String) :=
  [("f1", ["t1", "t2"]), ("f2", ["t1", "t2"])]

/-- The matching `table_to_files` inverse map. -/
def c3ttf : List (String × List String) :=
  [("t1", ["f1", "f2"]), ("t2", ["f1", "f2"])]

/-- The single (tight) coupling edge the analyzer emits on the witness
input. -/
def c3edge : DataCoupling :=
  { tables := ["t1", "t2"], coupling_strength := "tight"
    accessed_by_files := ["f1", "f2"]
    recommendation := "Tables t1 and t2 should be in the SAME module/service" }

theorem coupling_strength_thresholds_witness :
    c3edge ∈ analyze_data_coupling c3ftt c3ttf ∧
      (∃ t1 t2 c, c3edge.tables = [t1, t2] ∧ ((t1, t2), c) ∈ tableCoOccurrence c3ftt ∧
        2 ≤ c ∧ 0 < (lookupD c3ttf t1 []).length ∧ 0 < (lookupD c3ttf t2 []).length ∧
        (c3edge.coupling_strength = "tight" ↔ 4/5 ≤ couplingRatio c3ttf t1 t2) ∧
        (c3edge.coupling_strength = "moderate" ↔
          1/2 ≤ couplingRatio c3ttf t1 t2 ∧ couplingRatio c3ttf t1 t2 < 4/5) ∧
        (c3edge.coupling_strength = "loose" ↔ couplingRatio c3ttf t1 t2 < 1/2)) :=
  ⟨by decide, coupling_strength_thresholds c3ftt c3ttf c3edge (by decide)⟩

/-- C6 (amended): the pair list the coupling analyzer iterates over — and
hence the order in which coupling edges are appended to
`self.data_couplings` and later consumed by the clusterer — is sorted by
descending co-occurrence count only; among edges of equal count the order
is the first-insertion (file-iteration) order of the pairs, not the
lexicographic order of the table pair (see the counterexample). -/
theorem coupling_edges_sorted_by_count_only (ftt ttf : List (String × List String)) :
    analyze_data_coupling ftt ttf
        = (pySort countDescLt (tableCoOccurrence ftt)).filterMap (mkCouplingEdge ttf) ∧
      (pySort countDescLt (tableCoOccurrence ftt)).Pairwise
        (fun a b => b.2 ≤ a.2) := by
  refine ⟨rfl, ?_⟩
  have h : (pySort countDescLt (tableCoOccurrence ftt)).Pairwise
      (fun a b => countDescLt b a = false) := pairwise_pySort
    (fun x y hxy => by simpa [countDescLt] using Nat.le_of_lt (by simpa [countDescLt] using hxy))
    (fun x y z hxy hyz => by
      simp only [countDescLt, decide_eq_true_eq] at hxy hyz ⊢
      omega)
    (tableCoOccurrence ftt)
  refine h.imp ?_
  intro a b hab
  simpa [countDescLt, Nat.not_lt] using hab

/-- Counterexample `file_to_tables` for the claimed lexicographic tie
order: pair `("x","y")` is inserted before pair `("a","b")`, both end with
co-occurrence count 2. -/
def c6ftt : List (String × List String) :=
  [("F1", ["x", "y"]), ("F2", ["a", "b"]), ("F3", ["x", "y"]), ("F4", ["a", "b"])]

/-- The matching `table_to_files` inverse map. -/
def c6ttf : List (String × List String) :=
  [("x", ["F1", "F3"]), ("y", ["F1", "F3"]), ("a", ["F2", "F4"]), ("b", ["F2", "F4"])]

/-- C6 (counterexample to the literal claim): on `c6ftt` both kept pairs
have co-occurrence count 2, the pair `("a","b")` is lexicographically
smaller than `("x","y")`, yet the sorted pair list — and the emitted edge
list — keeps `("x","y")` first (insertion order). The edges are therefore
not sorted by (descending count, then lexicographic pair): the code sorts
by count alone. -/
theorem coupling_edges_not_lex_sorted :
    (pySort countDescLt (tableCoOccurrence c6ftt)).map Prod.fst
        = [("x", "y"), ("a", "b")] ∧
      (pySort countDescLt (tableCoOccurrence c6ftt)).map Prod.snd = [2, 2] ∧
      (analyze_data_coupling c6ftt c6ttf).map DataCoupling.tables
        = [["x", "y"], ["a", "b"]] ∧
      pyStrLt "a" "x" = true := by
  refine ⟨by decide, by decide, by decide, by decide⟩

/-! ### `compute_service_boundaries` (boundary clusterer) -/

/-- The `existing_cluster` scan: the cluster of the first evidencing file
already present in `file_to_cluster` (Python leaves `existing_cluster`
as `None` when no file is assigned; the caller then tests truthiness, so
an empty-string cluster name also counts as unassigned). -/
def firstAssignedCluster (ftc : List (String × String)) : List String → Option String
  | [] => none
  | f :: fs => if hasKey ftc f then some (lookupD ftc f "") else firstAssignedCluster ftc fs

/-- The new-cluster name `"_".join(sorted(coupling.tables)[:2])`. -/
def joinTwoTables (tables : List String) : String :=
  String.intercalate "_" ((sortStrings tables).take 2)

/-- Step 1 of `compute_service_boundaries`: seed clusters from one tight
coupling edge. The state is the pair `(clusters, file_to_cluster)`. -/
def clusterStep1 (st : List (String × List String) × List (String × String))
    (c : DataCoupling) : List (String × List String) × List (String × String) :=
  if c.coupling_strength == "tight" then
    let files := c.accessed_by_files
    if files.isEmpty then st
    else
      let exv := (firstAssignedCluster st.2 files).getD ""
      if exv != "" then
        files.foldl (fun acc f => (mapAddToSet acc.1 exv f, assocPut acc.2 f exv)) st
      else
        let nm := joinTwoTables c.tables
        (assocPut st.1 nm (List.foldl setAdd [] files),
          files.foldl (fun m f => assocPut m f nm) st.2)
  else st

/-- Step 2 of `compute_service_boundaries`: assign each still-unassigned
file with a nonempty table set to the cluster named after its
lexicographically smallest table (`sorted(tables)[0]`). Creating the
cluster entry on demand and then adding the file is exactly
`mapAddToSet`. -/
def clusterStep2 (st : List (String × List String) × List (String × String))
    (e : String × List String) : List (String × List String) × List (String × String) :=
  if !hasKey st.2 e.1 && !e.2.isEmpty then
    let dom := (sortStrings e.2).headD ""
    (mapAddToSet st.1 dom e.1, assocPut st.2 e.1 dom)
  else st

/-- The route-domain heuristic: drop the method prefix of the first route
key (the part up to the first space), strip slashes, and take the first
path segment. Python's `parts[0] if parts else 'misc'` never takes the
`'misc'` branch because `str.split('/')` is never empty; the embedding
keeps the dead default. -/
def routeDomain (r : String) : String :=
  let fr := if r.data.contains ' ' then String.mk (afterFirstSpace r.data) else r
  match splitCharList '/' (stripSlashes fr).data with
  | [] => "misc"
  | p :: _ => String.mk p

/-- Step 3 of `compute_service_boundaries`: assign each still-unassigned
file that has routes to the cluster named after its first route's first
path segment. `ftrAll` is the whole `file_to_routes` dict, which the loop
re-indexes by key. -/
def clusterStep3 (ftrAll : List (String × List String))
    (st : List (String × List String) × List (String × String))
    (e : String × List String) : List (String × List String) × List (String × String) :=
  if !hasKey st.2 e.1 then
    let routes := lookupD ftrAll e.1 []
    if !routes.isEmpty then
      let dom := routeDomain (routes.headD "")
      (mapAddToSet st.1 dom e.1, assocPut st.2 e.1 dom)
    else st
  else st

/-- `ArchitecturalSynthesizer.compute_service_boundaries`, as a function
of `self.data_couplings`, `self.file_to_tables` and
`self.file_to_routes`; returns the pair `(clusters, file_to_cluster)`
that the method hands to `_refine_clusters_to_modules`. -/
def compute_service_boundaries (dcs : List DataCoupling)
    (ftt ftr : List (String × List String)) :
    List (String × List String) × List (String × String) :=
  let st1 := dcs.foldl clusterStep1 ([], [])
  let st2 := ftt.foldl clusterStep2 st1
  ftr.foldl (clusterStep3 ftr) st2

theorem foldl_preserve {σ α : Type _} (P : σ → Prop) (g : σ → α → σ)
    (h : ∀ s a, P s → P (g s a)) :
    ∀ (l : List α) (s : σ), P s → P (l.foldl g s) := by
  intro l
  induction l with
  | nil => exact fun s hs => hs
  | cons a as ih => exact fun s hs => ih _ (h s a hs)

theorem hasKey_assocPut (m : List (String × α)) (k k2 : String) (v : α) :
    hasKey (assocPut m k v) k2 = (hasKey m k2 || k == k2) :=
  hasKey_assocUpdate m k k2 v (fun _ => v)

theorem hasKey_assocPut_mono {m : List (String × α)} {k2 : String} (k : String)
    (v : α) (h : hasKey m k2 = true) : hasKey (assocPut m k v) k2 = true := by
  rw [hasKey_assocPut, h, Bool.true_or]

theorem hasKey_clusterStep1_mono {st : List (String × List String) × List (String × String)}
    {f0 : String} (c : DataCoupling) (h : hasKey st.2 f0 = true) :
    hasKey (clusterStep1 st c).2 f0 = true := by
  unfold clusterStep1
  dsimp only
  split
  · split
    · exact h
    · split
      · refine foldl_preserve (fun s => hasKey s.2 f0 = true) _ ?_ _ st h
        intro s a hs
        exact hasKey_assocPut_mono _ _ hs
      · refine foldl_preserve (fun m => hasKey m f0 = true) _ ?_ _ st.2 h
        intro s a hs
        exact hasKey_assocPut_mono _ _ hs
  · exact h

theorem hasKey_clusterStep2_mono {st : List (String × List String) × List (String × String)}
    {f0 : String} (e : String × List String) (h : hasKey st.2 f0 = true) :
    hasKey (clusterStep2 st e).2 f0 = true := by
  unfold clusterStep2
  dsimp only
  split
  · exact hasKey_assocPut_mono _ _ h
  · exact h

theorem hasKey_clusterStep3_mono {ftrAll : List (String × List String)}
    {st : List (String × List String) × List (String × String)}
    {f0 : String} (e : String × List String) (h : hasKey st.2 f0 = true) :
    hasKey (clusterStep3 ftrAll st e).2 f0 = true := by
  unfold clusterStep3
  dsimp only
  split
  · split
    · exact hasKey_assocPut_mono _ _ h
    · exact h
  · exact h

theorem hasKey_after_step2 {f0 : String} {ts : List String} (hts : ts ≠ []) :
    ∀ (l : List (String × List String))
      (st : List (String × List String) × List (String × String)),
      (f0, ts) ∈ l → hasKey (l.foldl clusterStep2 st).2 f0 = true := by
  intro l
  induction l with
  | nil => intro st h; exact absurd h (List.not_mem_nil _)
  | cons e rest ih =>
    intro st h
    rcases List.mem_cons.mp h with rfl | hmem
    · have hstep : hasKey (clusterStep2 st (f0, ts)).2 f0 = true := by
        unfold clusterStep2
        dsimp only
        split
        · rw [hasKey_assocPut]
          simp
        · rename_i hcond
          rcases Bool.eq_false_or_eq_true (hasKey st.2 f0) with hf | hf
          · exact hf
          · exfalso
            apply hcond
            cases ts with
            | nil => exact absurd rfl hts
            | cons a as => simp [hf]
      exact foldl_preserve (fun s => hasKey s.2 f0 = true) clusterStep2
        (fun s a hs => hasKey_clusterStep2_mono a hs) rest _ hstep
    · exact ih _ hmem

theorem hasKey_after_step3 {ftrAll : List (String × List String)} {f0 : String}
    (hro : lookupD ftrAll f0 [] ≠ []) :
    ∀ (l : List (String × List String))
      (st : List (String × List String) × List (String × String)),
      f0 ∈ l.map Prod.fst → hasKey (l.foldl (clusterStep3 ftrAll) st).2 f0 = true := by
  intro l
  induction l with
  | nil => intro st h; exact absurd h (by simp)
  | cons e rest ih =>
    intro st h
    rw [List.map_cons] at h
    rcases List.mem_cons.mp h with hf | hmem
    · subst hf
      have hstep : hasKey (clusterStep3 ftrAll st e).2 e.1 = true := by
        unfold clusterStep3
        dsimp only
        split
        · split
          · rw [hasKey_assocPut]
            simp
          · rename_i hcond
            have hemp : (lookupD ftrAll e.1 []).isEmpty = true := by
              rcases Bool.eq_false_or_eq_true ((lookupD ftrAll e.1 []).isEmpty) with hx | hx
              · exact hx
              · exact absurd (by simp [hx]) hcond
            exact absurd (List.isEmpty_iff.mp hemp) hro
        · rename_i hcond
          simpa using hcond
      exact foldl_preserve (fun s => hasKey s.2 e.1 = true) (clusterStep3 ftrAll)
        (fun s a hs => hasKey_clusterStep3_mono a hs) rest _ hstep
    · exact ih _ hmem

/-- C4 (amended): after `compute_service_boundaries`, every file with at
least one referenced table or at least one route is assigned a cluster
name in the `file_to_cluster` map. (The cluster sets themselves need not
partition these files: a file bridged into another cluster stays in its
old cluster set, and a cluster-name collision overwrites an earlier
cluster wholesale — see the counterexample.) -/
theorem service_boundaries_assign_every_referenced_file
    (dcs : List DataCoupling) (ftt ftr : List (String × List String)) (f : String)
    (h : (∃ ts, (f, ts) ∈ ftt ∧ ts ≠ []) ∨
      (f ∈ ftr.map Prod.fst ∧ lookupD ftr f [] ≠ [])) :
    hasKey (compute_service_boundaries dcs ftt ftr).2 f = true := by
  unfold compute_service_boundaries
  rcases h with ⟨ts, hmem, hts⟩ | ⟨hmem, hro⟩
  · exact foldl_preserve (fun s => hasKey s.2 f = true) (clusterStep3 ftr)
      (fun s a hs => hasKey_clusterStep3_mono a hs) ftr _
      (hasKey_after_step2 hts ftt _ hmem)
  · exact hasKey_after_step3 hro ftr _ hmem

theorem service_boundaries_assign_every_referenced_file_witness :
    ((∃ ts, ("g.php", ts) ∈ [("g.php", ["t"])] ∧ ts ≠ ([] : List String)) ∨
      ("g.php" ∈ ([] : List (String × List String)).map Prod.fst ∧
        lookupD ([] : List (String × List String)) "g.php" [] ≠ [])) ∧
      hasKey (compute_service_boundaries [] [("g.php", ["t"])] []).2 "g.php" = true :=
  ⟨Or.inl ⟨["t"], by decide, by decide⟩,
    service_boundaries_assign_every_referenced_file [] [("g.php", ["t"])] [] "g.php"
      (Or.inl ⟨["t"], by decide, by decide⟩)⟩

/-- Counterexample `file_to_tables` input 1: file `b` bridges the cluster
of tables `t1, t2` (files `a, e, b`) and the cluster of `t3, t4` (files
`c, d, f`) through the tight pair `(t5, t6)` shared by `b` and `c`. -/
def c4ftt1 : List (String × List String) :=
  [("a", ["t1", "t2"]), ("e", ["t1", "t2"]), ("b", ["t1", "t2", "t5", "t6"]),
    ("c", ["t3", "t4", "t5", "t6"]), ("d", ["t3", "t4"]), ("f", ["t3", "t4"])]

/-- The matching `table_to_files` inverse map for input 1. -/
def c4ttf1 : List (String × List String) :=
  [("t1", ["a", "e", "b"]), ("t2", ["a", "e", "b"]), ("t3", ["c", "d", "f"]),
    ("t4", ["c", "d", "f"]), ("t5", ["b", "c"]), ("t6", ["b", "c"])]

/-- Counterexample `file_to_tables` input 2: the table pairs
`("a", "b_c")` and `("a_b", "c")` both produce the cluster name
`"a_b_c"`, so the second tight edge overwrites the first cluster. -/
def c4ftt2 : List (String × List String) :=
  [("f1", ["a", "b_c"]), ("f2", ["a", "b_c"]), ("f3", ["a_b", "c"]),
    ("f4", ["a_b", "c"])]

/-- The matching `table_to_files` inverse map for input 2. -/
def c4ttf2 : List (String × List String) :=
  [("a", ["f1", "f2"]), ("b_c", ["f1", "f2"]), ("a_b", ["f3", "f4"]),
    ("c", ["f3", "f4"])]

/-- C4 (counterexample to the literal claim): the clusters computed by
`compute_service_boundaries` are not a partition of the referenced files.
On input 1 (couplings computed by the analyzer itself from `c4ftt1`),
file `c` ends up in both the `t1_t2` and the `t3_t4` cluster — the
clusters are not pairwise disjoint, because merging into an existing
cluster does not remove files from the cluster they were in. On input 2,
file `f1` has a nonempty table set yet belongs to no cluster at all — the
second tight edge reuses the name `a_b_c` and `clusters[name] = set(files)`
overwrites the earlier cluster wholesale. -/
theorem service_boundaries_partition_counterexample :
    ("c" ∈ lookupD (compute_service_boundaries
          (analyze_data_coupling c4ftt1 c4ttf1) c4ftt1 []).1 "t1_t2" [] ∧
      "c" ∈ lookupD (compute_service_boundaries
          (analyze_data_coupling c4ftt1 c4ttf1) c4ftt1 []).1 "t3_t4" [] ∧
      ("t1_t2" : String) ≠ "t3_t4") ∧
    (("f1", ["a", "b_c"]) ∈ c4ftt2 ∧
      (compute_service_boundaries (analyze_data_coupling c4ftt2 c4ttf2) c4ftt2 []).1
        = [("a_b_c", ["f3", "f4"])]) := by
  refine ⟨⟨by decide, by decide, by decide⟩, by decide, by decide⟩

/-! ### `_refine_clusters_to_modules` (module profiler) -/

/-- Per-file metric snapshot stored in `self.file_metrics`. Only the
length of the stored `security_issues` list is ever read downstream, so
the embedding keeps the count. -/
structure FileMetrics where
  lines : Int
  complexity : Int
  functions : Nat
  has_database : Bool
  security_issues : Nat
deriving DecidableEq, Repr

/-- `self.file_metrics.get(filename, {})` followed by per-key `.get(_, 0)`
defaults. -/
def metricsOf (fm : List (String × FileMetrics)) (f : String) : FileMetrics :=
  lookupD fm f ⟨0, 0, 0, false, 0⟩

/-- The hardcoded `domain_names` normalization table, in source order. -/
def domainNames : List (String × String) :=
  [("user", "users"), ("users", "users"), ("auth", "auth"), ("login", "auth"),
    ("session", "auth"), ("product", "products"), ("products", "products"),
    ("item", "products"), ("items", "products"), ("category", "categories"),
    ("categories", "categories"), ("cat", "categories"), ("order", "orders"),
    ("orders", "orders"), ("cart", "cart"), ("basket", "cart"),
    ("payment", "payments"), ("payments", "payments"), ("pay", "payments"),
    ("search", "search"), ("config", "config"), ("settings", "config"),
    ("notification", "notifications"), ("notifications", "notifications"),
    ("push", "notifications"), ("mail", "notifications"), ("email", "notifications")]

/-- Cluster-name normalization: lowercase, `-` to `_`, drop `.php`, then
the first `domain_names` key occurring as a substring wins. -/
def normalizeClusterName (s : String) : String :=
  let n := replaceStr (replaceStr (lowerStr s) "-" "_") ".php" ""
  match domainNames.find? (fun p => strContains n p.1) with
  | some p => p.2
  | none => n

/-- Merge clusters whose names normalize identically
(`merged_clusters[normalized].update(files)`). -/
def mergedClusters (clusters : List (String × List String)) :
    List (String × List String) :=
  clusters.foldl
    (fun acc e => assocUpdate acc (normalizeClusterName e.1) [] (fun s => setUnion s e.2))
    []

/-- Comparison for `sorted(merged_clusters.items(), key=lambda x:
len(x[1]), reverse=True)`. -/
def lenDescLt (a b : String × List String) : Bool :=
  b.2.length < a.2.length

/-- Python `str(n)` for an integer. -/
def intToStr (n : Int) : String :=
  if n < 0 then "-" ++ toString n.natAbs else toString n.natAbs

/-- The fixed canonical module sequence used for the final priority
sort. -/
def priorityOrder : List String :=
  ["config", "health", "auth", "users", "products", "categories", "search",
    "cart", "orders", "payments"]

/-- `get_priority`: the index in the canonical sequence, or `100 +
complexity_score` (`priority_order.index` raising `ValueError` is the
`none` branch). -/
def priorityKey (m : ModuleRecommendation) : Int :=
  match priorityOrder.findIdx? (fun s => s == m.name) with
  | some i => (i : Int)
  | none => 100 + m.complexity_score

/-- Comparison for `self.module_recommendations.sort(key=get_priority)`. -/
def getPriorityLt (a b : ModuleRecommendation) : Bool :=
  priorityKey a < priorityKey b

/-- The loop body of `_refine_clusters_to_modules` for one merged cluster
`(module_name, files)` with running priority `prio`: aggregate member-file
metrics, adjust the security count by the hotspot totals, classify risk
and effort, detect pre-extracted microservices, build the rationale text
and the heuristic dependency edges, and assemble the
`ModuleRecommendation`. -/
def buildModule (merged : List (String × List String)) (fm : List (String × FileMetrics))
    (ftr ftt : List (String × List String)) (hotspots : List SecurityHotspot)
    (services : List String) (prio : Int) (module_name : String) (files : List String) :
    ModuleRecommendation :=
  let total_lines := (files.map (fun f => (metricsOf fm f).lines)).sum
  let total_complexity := (files.map (fun f => (metricsOf fm f).complexity)).sum
  let base_security := (files.map (fun f => ((metricsOf fm f).security_issues : Int))).sum
  let all_routes := files.foldl (fun acc f => acc ++ lookupD ftr f []) []
  let all_tables := files.foldl (fun acc f => setUnion acc (lookupD ftt f [])) []
  let total_security := hotspots.foldl
    (fun acc h => if files.contains h.file then max acc h.total_issues else acc)
    base_security
  let risk := if 10 < total_security ∨ 300 < total_complexity then "high"
    else if 5 < total_security ∨ 150 < total_complexity then "medium" else "low"
  let effort := if 1000 < total_lines then "large"
    else if 300 < total_lines then "medium" else "small"
  let is_ms := services.any (fun svc => replaceStr svc "-service" "" == module_name)
  let rationale_parts :=
    (if !all_routes.isEmpty then
      ["Handles " ++ toString all_routes.length ++ " routes"] else []) ++
    (if !all_tables.isEmpty then
      ["Accesses " ++ toString all_tables.length ++ " tables (" ++
        String.intercalate ", " ((sortStrings all_tables).take 3) ++
        (if 3 < all_tables.length then "..." else "") ++ ")"] else []) ++
    (if 0 < total_security then
      [intToStr total_security ++ " security issues to address"] else [])
  let rationale := if rationale_parts.isEmpty then "Groups related functionality"
    else String.intercalate ". " rationale_parts
  let deps := merged.foldl (fun acc o =>
    if o.1 != module_name then
      let otherTables := o.2.foldl (fun acc2 f => setUnion acc2 (lookupD ftt f [])) []
      if !(all_tables.filter (fun t => otherTables.contains t)).isEmpty then
        if ["orders", "cart", "payments"].contains module_name && o.1 == "users" then
          acc ++ ["users"]
        else if ["orders", "cart"].contains module_name && o.1 == "products" then
          acc ++ ["products"]
        else acc
      else acc
    else acc) []
  { name := module_name
    rationale := rationale
    routes := sortStrings (List.foldl setAdd [] all_routes)
    tables := sortStrings all_tables
    php_files := sortStrings files
    complexity_score := total_complexity
    security_issues := total_security
    lines_of_code := total_lines
    priority := prio
    dependencies := sortStrings (List.foldl setAdd [] deps)
    is_microservice := is_ms
    migration_risk := risk
    estimated_effort := effort }

/-- `ArchitecturalSynthesizer._refine_clusters_to_modules`, as a function
of the raw clusters and of `self.file_metrics`, `self.file_to_routes`,
`self.file_to_tables`, `self.security_hotspots` and the pre-extracted
service names. -/
def _refine_clusters_to_modules (clusters : List (String × List String))
    (fm : List (String × FileMetrics)) (ftr ftt : List (String × List String))
    (hotspots : List SecurityHotspot) (services : List String) :
    List ModuleRecommendation :=
  let merged := mergedClusters clusters
  let built := ((pySort lenDescLt merged).filter (fun e => !e.2.isEmpty)).enum.map
    (fun p => buildModule merged fm ftr ftt hotspots services ((p.1 : Int) + 1) p.2.1 p.2.2)
  (pySort getPriorityLt built).enum.map
    (fun p => { p.2 with priority := (p.1 : Int) + 1 })

theorem contains_sortStrings (l : List String) (x : String) :
    (sortStrings l).contains x = l.contains x := by
  by_cases hx : x ∈ l
  · have h1 : l.contains x = true := by simpa [List.contains, List.elem_iff] using hx
    have h2 : (sortStrings l).contains x = true := by
      simpa [List.contains, List.elem_iff] using mem_pySort.mpr hx
    rw [h1, h2]
  · have h1 : l.contains x = false := by
      simpa [List.contains, List.elem_iff] using hx
    have h2 : (sortStrings l).contains x = false := by
      simpa [List.contains, List.elem_iff] using fun hmem => hx (mem_pySort.mp hmem)
    rw [h1, h2]

theorem mem_tablesUnionFold (ftt : List (String × List String)) (t : String) :
    ∀ (files : List String) (acc : List String),
      t ∈ files.foldl (fun acc f => setUnion acc (lookupD ftt f [])) acc ↔
        t ∈ acc ∨ ∃ f ∈ files, t ∈ lookupD ftt f [] := by
  intro files
  induction files with
  | nil => simp
  | cons f fs ih =>
    intro acc
    rw [List.foldl_cons, ih, mem_setUnion]
    simp only [List.mem_cons]
    constructor
    · rintro ((h | h) | ⟨g, hg, hgt⟩)
      · exact Or.inl h
      · exact Or.inr ⟨f, Or.inl rfl, h⟩
      · exact Or.inr ⟨g, Or.inr hg, hgt⟩
    · rintro (h | ⟨g, (rfl | hg), hgt⟩)
      · exact Or.inl (Or.inl h)
      · exact Or.inl (Or.inr hgt)
      · exact Or.inr ⟨g, hg, hgt⟩

theorem mem_refine_exists (clusters : List (String × List String))
    (fm : List (String × FileMetrics)) (ftr ftt : List (String × List String))
    (hotspots : List SecurityHotspot) (services : List String)
    (m : ModuleRecommendation)
    (h : m ∈ _refine_clusters_to_modules clusters fm ftr ftt hotspots services) :
    ∃ (prio : Int) (nm : String) (files : List String) (i : Int),
      m = { buildModule (mergedClusters clusters) fm ftr ftt hotspots services
        prio nm files with priority := i } := by
  unfold _refine_clusters_to_modules at h
  dsimp only at h
  obtain ⟨⟨i, m0⟩, hmem, hm⟩ := List.mem_map.mp h
  have hm0 : m0 ∈ pySort getPriorityLt
      (((pySort lenDescLt (mergedClusters clusters)).filter
        (fun e => !e.2.isEmpty)).enum.map
        (fun p => buildModule (mergedClusters clusters) fm ftr ftt hotspots services
          ((p.1 : Int) + 1) p.2.1 p.2.2)) := by
    have h2 := List.mem_map_of_mem Prod.snd hmem
    rwa [List.enum_map_snd] at h2
  rw [mem_pySort] at hm0
  obtain ⟨⟨j, e⟩, _, hbe⟩ := List.mem_map.mp hm0
  exact ⟨(j : Int) + 1, e.1, e.2, (i : Int) + 1, by rw [← hm, ← hbe]⟩

/-- C5 (amended): for every emitted module recommendation, its
`lines_of_code` and `complexity_score` equal the sums of the
corresponding per-file metrics over exactly its member files, and its
table set is the union of the member files' table sets. Its
`security_issues` field, however, is not the plain sum of the member
files' security counts: the code takes the maximum of that sum and the
largest hotspot `total_issues` among member files (so the two agree
exactly when no member hotspot total exceeds the sum — see the
counterexample for an input where they differ). -/
theorem module_metrics_aggregation (clusters : List (String × List String))
    (fm : List (String × FileMetrics)) (ftr ftt : List (String × List String))
    (hotspots : List SecurityHotspot) (services : List String)
    (m : ModuleRecommendation)
    (h : m ∈ _refine_clusters_to_modules clusters fm ftr ftt hotspots services) :
    m.lines_of_code = (m.php_files.map (fun f => (metricsOf fm f).lines)).sum ∧
      m.complexity_score
        = (m.php_files.map (fun f => (metricsOf fm f).complexity)).sum ∧
      (∀ t, t ∈ m.tables ↔ ∃ f ∈ m.php_files, t ∈ lookupD ftt f []) ∧
      m.security_issues = hotspots.foldl
        (fun acc hs => if m.php_files.contains hs.file then
          max acc hs.total_issues else acc)
        ((m.php_files.map (fun f => ((metricsOf fm f).security_issues : Int))).sum) := by
  obtain ⟨prio, nm, files, i, rfl⟩ :=
    mem_refine_exists clusters fm ftr ftt hotspots services m h
  unfold buildModule
  dsimp only
  have hsum : ∀ (g : String → Int),
      ((sortStrings files).map g).sum = (files.map g).sum :=
    fun g => ((pySort_perm pyStrLt files).map g).sum_eq
  refine ⟨(hsum _).symm, (hsum _).symm, ?_, ?_⟩
  · intro t
    simp only [sortStrings]
    rw [mem_pySort, mem_tablesUnionFold]
    simp only [List.not_mem_nil, false_or]
    constructor
    · rintro ⟨f, hf, hft⟩
      exact ⟨f, mem_pySort.mpr hf, hft⟩
    · rintro ⟨f, hf, hft⟩
      exact ⟨f, mem_pySort.mp hf, hft⟩
  · have hc : List.contains (sortStrings files) = List.contains files :=
      funext (contains_sortStrings files)
    rw [hc, hsum]

/-- Witness cluster input for the aggregation theorem. -/
def c5wcls : List (String × List String) := [("alpha", ["f1"])]

/-- Witness file metrics: `f1` has 10 lines, complexity 2, one recorded
security issue. -/
def c5wfm : List (String × FileMetrics) := [("f1", ⟨10, 2, 1, true, 1⟩)]

/-- Witness `file_to_tables` map. -/
def c5wftt : List (String × List String) := [("f1", ["tbl"])]

/-- The single module the profiler emits on the witness input. -/
def c5wmod : ModuleRecommendation :=
  (_refine_clusters_to_modules c5wcls c5wfm [] c5wftt [] []).headD
    { name := "", rationale := "", routes := [], tables := [], php_files := []
      complexity_score := 0, security_issues := 0, lines_of_code := 0
      priority := 0, dependencies := [], is_microservice := false
      migration_risk := "", estimated_effort := "" }

theorem module_metrics_aggregation_witness :
    c5wmod ∈ _refine_clusters_to_modules c5wcls c5wfm [] c5wftt [] [] ∧
      (c5wmod.lines_of_code
          = (c5wmod.php_files.map (fun f => (metricsOf c5wfm f).lines)).sum ∧
        c5wmod.complexity_score
          = (c5wmod.php_files.map (fun f => (metricsOf c5wfm f).complexity)).sum ∧
        (∀ t, t ∈ c5wmod.tables ↔ ∃ f ∈ c5wmod.php_files, t ∈ lookupD c5wftt f []) ∧
        c5wmod.security_issues = ([] : List SecurityHotspot).foldl
          (fun acc hs => if c5wmod.php_files.contains hs.file then
            max acc hs.total_issues else acc)
          ((c5wmod.php_files.map
            (fun f => ((metricsOf c5wfm f).security_issues : Int))).sum)) :=
  ⟨by decide,
    module_metrics_aggregation c5wcls c5wfm [] c5wftt [] [] c5wmod (by decide)⟩

/-- Counterexample file metrics: `f1` has no security issues in its own
metric record. -/
def c5cxfm : List (String × FileMetrics) := [("f1", ⟨10, 2, 0, false, 0⟩)]

/-- Counterexample hotspot list: `f1` is a hotspot with 3 total issues
(findings counted from the separate `security_issues_detail` input). -/
def c5cxhot : List SecurityHotspot :=
  [{ file := "f1", issues := [("sql_injection", 3)], total_issues := 3
     severity_score := 30, recommendation := "r" }]

/-- C5 (counterexample to the literal claim): with member file `f1`
carrying 0 security issues in its metrics but appearing as a hotspot with
`total_issues = 3`, the emitted module reports `security_issues = 3`
while the sum over member files is 0 — the field is not the sum of the
per-file metric. -/
theorem module_security_not_sum_counterexample :
    (_refine_clusters_to_modules [("users", ["f1"])] c5cxfm [] [] c5cxhot []).map
        ModuleRecommendation.security_issues = [3] ∧
      (_refine_clusters_to_modules [("users", ["f1"])] c5cxfm [] [] c5cxhot []).map
        ModuleRecommendation.php_files = [["f1"]] ∧
      (["f1"].map (fun f => ((metricsOf c5cxfm f).security_issues : Int))).sum = 0 := by
  refine ⟨by decide, by decide, by decide⟩

/-! ### `identify_security_hotspots` (security hotspot ranker) -/

/-- One record of the `security_issues_detail` input, after the
`.get(..., default)` shape handling (`file` defaults to `"unknown"`,
`type` to `"unknown"`, `severity` to `"medium"`). -/
structure SecurityIssueRecord where
  file : String
  type : String
  severity : String
deriving DecidableEq, Repr

/-- `severity_weights = {'critical': 10, 'high': 5, 'medium': 2,
'low': 1}` with `.get(severity, 1)`. -/
def severityWeight (s : String) : Int :=
  if s == "critical" then 10
  else if s == "high" then 5
  else if s == "medium" then 2
  else if s == "low" then 1
  else 1

/-- One iteration of the grouping loop: bump the per-type count for the
file's basename, then add the severity weight to the `_severity_score`
slot of the same inner dict (the code stores the score under that
reserved key inside the counts dict). -/
def byFileStep (bf : List (String × List (String × Int))) (iss : SecurityIssueRecord) :
    List (String × List (String × Int)) :=
  assocUpdate bf (basename iss.file) []
    (fun inner => bumpBy (bumpBy inner iss.type 1) "_severity_score"
      (severityWeight (lowerStr iss.severity)))

/-- `x[1].get('_severity_score', 0)`. -/
def scoreOfInner (inner : List (String × Int)) : Int :=
  lookupD inner "_severity_score" 0

/-- Comparison for `sorted(by_file.items(), key=lambda x:
x[1].get('_severity_score', 0), reverse=True)`. -/
def scoreDescLt (a b : String × List (String × Int)) : Bool :=
  scoreOfInner b.2 < scoreOfInner a.2

/-- Sum of the values of a counts dict. -/
def sumVals (m : List (String × Int)) : Int :=
  (m.map Prod.snd).sum

/-- The recommendation heuristic: pick the top three issue types by count
and match them (`'auth' in str(top_types).lower()` renders the Python
list literal and searches it, which `pyStrOfList` reproduces). -/
def hotspotRec (issues : List (String × Int)) : String :=
  let top_types := ((pySort (fun a b : String × Int => b.2 < a.2) issues).take 3).map
    Prod.fst
  if top_types.contains "sql_injection" then
    "CRITICAL: Use parameterized queries/TypeORM. Migrate this file early."
  else if top_types.contains "xss" then
    "HIGH: Add input validation and output encoding. Use class-validator."
  else if strContains (lowerStr (pyStrOfList top_types)) "auth" then
    "HIGH: Implement proper JWT guards and role-based access."
  else
    "MEDIUM: Address security issues during migration with proper NestJS patterns."

/-- `ArchitecturalSynthesizer.identify_security_hotspots`, as a function
of `legacy_analysis['security_issues_detail']`. -/
def identify_security_hotspots (details : List SecurityIssueRecord) :
    List SecurityHotspot :=
  let bf := details.foldl byFileStep []
  (pySort scoreDescLt bf).filterMap (fun p =>
    let issues := removeKey p.2 "_severity_score"
    let score := lookupD p.2 "_severity_score" 0
    let total := sumVals issues
    if 3 ≤ total ∨ 10 ≤ score then
      some { file := p.1, issues := issues, total_issues := total
             severity_score := score, recommendation := hotspotRec issues }
    else none)

/-- The number of findings the detail list attributes to basename `f`. -/
def fileFindingCount (details : List SecurityIssueRecord) (f : String) : Int :=
  ((details.filter (fun i => basename i.file == f)).length : Int)

/-- The severity-weighted score of the findings attributed to basename
`f`. -/
def fileSeverityScore (details : List SecurityIssueRecord) (f : String) : Int :=
  ((details.filter (fun i => basename i.file == f)).map
    (fun i => severityWeight (lowerStr i.severity))).sum

theorem lookupD_bumpBy_self (m : List (String × Int)) (k : String) (n d : Int) :
    lookupD (bumpBy m k n) k d = lookupD m k 0 + n :=
  lookupD_assocUpdate_self m k 0 d (fun v => v + n)

theorem lookupD_bumpBy_ne (m : List (String × Int)) {k k2 : String} (n d : Int)
    (h : k2 ≠ k) : lookupD (bumpBy m k n) k2 d = lookupD m k2 d :=
  lookupD_assocUpdate_ne m 0 d (fun v => v + n) h

theorem removeKey_cons (p : String × α) (l : List (String × α)) (k : String) :
    removeKey (p :: l) k
      = if p.1 == k then removeKey l k else p :: removeKey l k := by
  by_cases h : p.1 == k
  · simp [removeKey, List.filter_cons, h]
  · simp only [removeKey, List.filter_cons]
    rw [if_neg h]
    simp [h]

theorem sumVals_cons (p : String × Int) (l : List (String × Int)) :
    sumVals (p :: l) = p.2 + sumVals l := by
  simp [sumVals]

theorem bumpBy_cons (k2 : String) (v : Int) (rest : List (String × Int))
    (k : String) (n : Int) :
    bumpBy ((k2, v) :: rest) k n
      = if k2 == k then (k2, v + n) :: rest else (k2, v) :: bumpBy rest k n := by
  simp [bumpBy, assocUpdate]

theorem removeKey_bumpBy_self (m : List (String × Int)) (key : String) (n : Int) :
    removeKey (bumpBy m key n) key = removeKey m key := by
  induction m with
  | nil => simp [bumpBy, assocUpdate, removeKey, List.filter_cons]
  | cons p rest ih =>
    obtain ⟨k2, v⟩ := p
    rw [bumpBy_cons]
    by_cases h : k2 = key
    · rw [if_pos (by simp [h]), removeKey_cons, removeKey_cons]
      simp [h]
    · rw [if_neg (by simp [h]), removeKey_cons, removeKey_cons]
      simp only [ih]

theorem sumVals_removeKey_bumpBy {m : List (String × Int)} {t key : String}
    (n : Int) (h : t ≠ key) :
    sumVals (removeKey (bumpBy m t n) key) = sumVals (removeKey m key) + n := by
  induction m with
  | nil =>
    simp only [bumpBy, assocUpdate, removeKey, List.filter_cons]
    simp [h, sumVals]
  | cons p rest ih =>
    obtain ⟨k2, v⟩ := p
    rw [bumpBy_cons]
    by_cases h2 : k2 = t
    · subst h2
      rw [if_pos (by simp), removeKey_cons, removeKey_cons]
      rw [if_neg (by simp [h]), if_neg (by simp [h])]
      rw [sumVals_cons, sumVals_cons]
      ring
    · rw [if_neg (by simp [h2]), removeKey_cons, removeKey_cons]
      by_cases h3 : k2 = key
      · rw [if_pos (by simp [h3]), if_pos (by simp [h3])]
        exact ih
      · rw [if_neg (by simp [h3]), if_neg (by simp [h3])]
        rw [sumVals_cons, sumVals_cons, ih]
        ring

theorem hasKey_iff_mem_keys (m : List (String × α)) (k : String) :
    hasKey m k = true ↔ k ∈ m.map Prod.fst := by
  induction m with
  | nil => simp [hasKey]
  | cons p rest ih =>
    simp only [hasKey, List.map_cons, List.mem_cons, Bool.or_eq_true, beq_iff_eq, ih]
    constructor
    · rintro (rfl | h)
      · exact Or.inl rfl
      · exact Or.inr h
    · rintro (rfl | h)
      · exact Or.inl rfl
      · exact Or.inr h

theorem mem_keys_assocUpdate (m : List (String × α)) (k k2 : String) (dflt : α)
    (f : α → α) :
    k2 ∈ (assocUpdate m k dflt f).map Prod.fst ↔ k2 ∈ m.map Prod.fst ∨ k2 = k := by
  rw [← hasKey_iff_mem_keys, hasKey_assocUpdate, ← hasKey_iff_mem_keys]
  simp [BEq.comm]
  constructor
  · rintro (h | h)
    · exact Or.inl h
    · exact Or.inr (by simpa [eq_comm] using h)
  · rintro (h | h)
    · exact Or.inl h
    · exact Or.inr (by simpa [eq_comm] using h)

theorem nodup_keys_assocUpdate {m : List (String × α)} (k : String) (dflt : α)
    (f : α → α) (h : (m.map Prod.fst).Nodup) :
    ((assocUpdate m k dflt f).map Prod.fst).Nodup := by
  induction m with
  | nil => simp [assocUpdate]
  | cons p rest ih =>
    obtain ⟨k2, v⟩ := p
    rcases List.nodup_cons.mp h with ⟨hk2, hrest⟩
    by_cases hkk : k2 = k
    · subst hkk
      simpa [assocUpdate] using h
    · have hne : (k2 == k) = false := by simp [hkk]
      simp only [assocUpdate, hne, List.map_cons]
      refine List.nodup_cons.mpr ⟨?_, ih hrest⟩
      rw [mem_keys_assocUpdate]
      rintro (hmem | rfl)
      · exact hk2 hmem
      · exact hkk rfl

theorem lookupD_eq_of_mem_nodup {m : List (String × α)} {k : String} {v : α}
    (hnd : (m.map Prod.fst).Nodup) (hmem : (k, v) ∈ m) (d : α) :
    lookupD m k d = v := by
  induction m with
  | nil => exact absurd hmem (List.not_mem_nil _)
  | cons p rest ih =>
    obtain ⟨k2, v2⟩ := p
    rcases List.nodup_cons.mp hnd with ⟨hk2, hrest⟩
    rcases List.mem_cons.mp hmem with heq | hmem2
    · injection heq with h1 h2
      subst h1
      subst h2
      simp [lookupD]
    · have hne : k2 ≠ k := by
        intro hkk
        rw [hkk] at hk2
        exact hk2 (List.mem_map.mpr ⟨(k, v), hmem2, rfl⟩)
      simp [lookupD, hne, ih hrest hmem2]

theorem exists_entry_of_hasKey {m : List (String × α)} {k : String}
    (h : hasKey m k = true) : ∃ v, (k, v) ∈ m := by
  induction m with
  | nil => simp [hasKey] at h
  | cons p rest ih =>
    obtain ⟨k2, v2⟩ := p
    by_cases h2 : k2 = k
    · exact ⟨v2, by simp [h2]⟩
    · have hrest : hasKey rest k = true := by
        simpa [hasKey, h2] using h
      obtain ⟨v, hv⟩ := ih hrest
      exact ⟨v, List.mem_cons_of_mem _ hv⟩

/-- The severity score the grouping dict stores for basename `f`. -/
def scoreAt (bf : List (String × List (String × Int))) (f : String) : Int :=
  scoreOfInner (lookupD bf f [])

/-- The total finding count the grouping dict stores for basename `f`
(after popping the reserved score slot). -/
def countAt (bf : List (String × List (String × Int))) (f : String) : Int :=
  sumVals (removeKey (lookupD bf f []) "_severity_score")

theorem scoreAt_byFileStep (bf : List (String × List (String × Int)))
    (iss : SecurityIssueRecord) (f : String) (hty : iss.type ≠ "_severity_score") :
    scoreAt (byFileStep bf iss) f = scoreAt bf f +
      (if basename iss.file == f then severityWeight (lowerStr iss.severity) else 0) := by
  unfold byFileStep scoreAt scoreOfInner
  by_cases hf : basename iss.file = f
  · rw [← hf, lookupD_assocUpdate_self, if_pos (by simp)]
    rw [lookupD_bumpBy_self, lookupD_bumpBy_ne _ _ _ (Ne.symm hty)]
  · rw [lookupD_assocUpdate_ne _ _ _ _ (fun hx => hf hx.symm), if_neg (by simp [hf])]
    ring

theorem countAt_byFileStep (bf : List (String × List (String × Int)))
    (iss : SecurityIssueRecord) (f : String) (hty : iss.type ≠ "_severity_score") :
    countAt (byFileStep bf iss) f = countAt bf f +
      (if basename iss.file == f then 1 else 0) := by
  unfold byFileStep countAt
  by_cases hf : basename iss.file = f
  · rw [← hf, lookupD_assocUpdate_self, if_pos (by simp)]
    rw [removeKey_bumpBy_self, sumVals_removeKey_bumpBy 1 hty]
  · rw [lookupD_assocUpdate_ne _ _ _ _ (fun hx => hf hx.symm), if_neg (by simp [hf])]
    ring

theorem hasKey_byFileStep (bf : List (String × List (String × Int)))
    (iss : SecurityIssueRecord) (f : String) :
    hasKey (byFileStep bf iss) f = (hasKey bf f || (basename iss.file == f)) :=
  hasKey_assocUpdate bf (basename iss.file) f [] _

theorem fileSeverityScore_cons (i : SecurityIssueRecord)
    (rest : List SecurityIssueRecord) (f : String) :
    fileSeverityScore (i :: rest) f =
      (if basename i.file == f then severityWeight (lowerStr i.severity) else 0) +
        fileSeverityScore rest f := by
  unfold fileSeverityScore
  rw [List.filter_cons]
  by_cases h : basename i.file = f
  · rw [if_pos (by simp [h]), if_pos (by simp [h])]
    simp
  · rw [if_neg (by simp [h]), if_neg (by simp [h])]
    ring

theorem fileFindingCount_cons (i : SecurityIssueRecord)
    (rest : List SecurityIssueRecord) (f : String) :
    fileFindingCount (i :: rest) f =
      (if basename i.file == f then 1 else 0) + fileFindingCount rest f := by
  unfold fileFindingCount
  rw [List.filter_cons]
  by_cases h : basename i.file = f
  · rw [if_pos (by simp [h]), if_pos (by simp [h])]
    simp
    ring
  · rw [if_neg (by simp [h]), if_neg (by simp [h])]
    ring

theorem scoreAt_foldl (f : String) :
    ∀ (details : List SecurityIssueRecord) (bf : List (String × List (String × Int))),
      (∀ i ∈ details, i.type ≠ "_severity_score") →
      scoreAt (details.foldl byFileStep bf) f = scoreAt bf f + fileSeverityScore details f := by
  intro details
  induction details with
  | nil =>
    intro bf _
    simp [fileSeverityScore]
  | cons i rest ih =>
    intro bf hty
    rw [List.foldl_cons, ih _ (fun j hj => hty j (List.mem_cons_of_mem _ hj)),
      scoreAt_byFileStep _ _ _ (hty i (List.mem_cons_self _ _)), fileSeverityScore_cons]
    ring

theorem countAt_foldl (f : String) :
    ∀ (details : List SecurityIssueRecord) (bf : List (String × List (String × Int))),
      (∀ i ∈ details, i.type ≠ "_severity_score") →
      countAt (details.foldl byFileStep bf) f = countAt bf f + fileFindingCount details f := by
  intro details
  induction details with
  | nil =>
    intro bf _
    simp [fileFindingCount]
  | cons i rest ih =>
    intro bf hty
    rw [List.foldl_cons, ih _ (fun j hj => hty j (List.mem_cons_of_mem _ hj)),
      countAt_byFileStep _ _ _ (hty i (List.mem_cons_self _ _)), fileFindingCount_cons]
    ring

theorem hasKey_foldl_byFileStep (f : String) :
    ∀ (details : List SecurityIssueRecord) (bf : List (String × List (String × Int))),
      (hasKey (details.foldl byFileStep bf) f = true ↔
        hasKey bf f = true ∨ ∃ i ∈ details, basename i.file = f) := by
  intro details
  induction details with
  | nil => simp
  | cons i rest ih =>
    intro bf
    rw [List.foldl_cons, ih, hasKey_byFileStep]
    simp only [Bool.or_eq_true, beq_iff_eq, List.mem_cons]
    constructor
    · rintro ((h | h) | ⟨j, hj, hjf⟩)
      · exact Or.inl h
      · exact Or.inr ⟨i, Or.inl rfl, h⟩
      · exact Or.inr ⟨j, Or.inr hj, hjf⟩
    · rintro (h | ⟨j, (rfl | hj), hjf⟩)
      · exact Or.inl (Or.inl h)
      · exact Or.inl (Or.inr hjf)
      · exact Or.inr ⟨j, hj, hjf⟩

theorem nodup_keys_foldl_byFileStep (details : List SecurityIssueRecord)
    (bf : List (String × List (String × Int)))
    (h : (bf.map Prod.fst).Nodup) :
    (((details.foldl byFileStep bf)).map Prod.fst).Nodup :=
  foldl_preserve (fun s => (s.map Prod.fst).Nodup) byFileStep
    (fun _ _ hs => nodup_keys_assocUpdate _ _ _ hs) details bf h

theorem pairwise_filterMap_of_pairwise {α β : Type _} {R : α → α → Prop}
    {S : β → β → Prop} (f : α → Option β)
    (hf : ∀ a b x y, R a b → f a = some x → f b = some y → S x y) :
    ∀ {l : List α}, l.Pairwise R → (l.filterMap f).Pairwise S := by
  intro l
  induction l with
  | nil => simp
  | cons a as ih =>
    intro h
    rcases List.pairwise_cons.mp h with ⟨ha, has⟩
    rw [List.filterMap_cons]
    cases hfa : f a with
    | none => exact ih has
    | some x =>
      refine List.pairwise_cons.mpr ⟨?_, ih has⟩
      intro y hy
      obtain ⟨b, hb, hfb⟩ := List.mem_filterMap.mp hy
      exact hf a b x y (ha b hb) hfa hfb

/-- C7: provided no finding carries the reserved type name
`_severity_score` (which the code stores in the same dict as the
per-type counts), a file appears among the emitted security hotspots if
and only if its total finding count is at least 3 or its severity score —
the sum of `{critical: 10, high: 5, medium: 2, low: 1}` weights over its
findings — is at least 10; and the emitted hotspot list is sorted by
descending severity score. -/
theorem security_hotspot_threshold_and_ranking (details : List SecurityIssueRecord)
    (hty : ∀ i ∈ details, i.type ≠ "_severity_score") :
    (∀ f : String,
      (∃ h ∈ identify_security_hotspots details, h.file = f) ↔
        (3 ≤ fileFindingCount details f ∨ 10 ≤ fileSeverityScore details f)) ∧
      ((identify_security_hotspots details).map SecurityHotspot.severity_score).Pairwise
        (fun a b => b ≤ a) := by
  have hnd : (((details.foldl byFileStep []).map Prod.fst)).Nodup :=
    nodup_keys_foldl_byFileStep details [] (by simp)
  have hscore : ∀ f, scoreAt (details.foldl byFileStep []) f = fileSeverityScore details f := by
    intro f
    have h := scoreAt_foldl f details [] hty
    simpa [scoreAt, scoreOfInner, lookupD] using h
  have hcount : ∀ f, countAt (details.foldl byFileStep []) f = fileFindingCount details f := by
    intro f
    have h := countAt_foldl f details [] hty
    simpa [countAt, sumVals, removeKey, lookupD] using h
  constructor
  · intro f
    constructor
    · rintro ⟨h, hmem, hf⟩
      subst hf
      unfold identify_security_hotspots at hmem
      dsimp only at hmem
      obtain ⟨p, hp, hmk⟩ := List.mem_filterMap.mp hmem
      rw [mem_pySort] at hp
      split_ifs at hmk with hguard
      · obtain rfl := (Option.some.inj hmk).symm
        have hval : lookupD (details.foldl byFileStep []) p.1 [] = p.2 :=
          lookupD_eq_of_mem_nodup hnd (by simpa using hp) []
      
        have e1 : sumVals (removeKey p.2 "_severity_score")
            = fileFindingCount details p.1 := by
          rw [← hcount p.1, countAt, hval]
        have e2 : lookupD p.2 "_severity_score" 0 = fileSeverityScore details p.1 := by
          rw [← hscore p.1, scoreAt, scoreOfInner, hval]
        rw [← e1, ← e2]
        exact hguard
    · intro hrhs
      have hne : ∃ i ∈ details, basename i.file = f := by
        by_contra hno
        push_neg at hno
        have hfilter : details.filter (fun i => basename i.file == f) = [] :=
          List.filter_eq_nil_iff.mpr (fun i hi => by simpa using hno i hi)
        rcases hrhs with hg | hg
        · rw [fileFindingCount, hfilter] at hg
          norm_num at hg
        · rw [fileSeverityScore, hfilter] at hg
          norm_num at hg
      have hkey : hasKey (details.foldl byFileStep []) f = true :=
        (hasKey_foldl_byFileStep f details []).mpr (Or.inr hne)
      obtain ⟨v, hv⟩ := exists_entry_of_hasKey hkey
      have hval : lookupD (details.foldl byFileStep []) f [] = v :=
        lookupD_eq_of_mem_nodup hnd hv []
      have e1 : sumVals (removeKey v "_severity_score") = fileFindingCount details f := by
        rw [← hcount f, countAt, hval]
      have e2 : lookupD v "_severity_score" 0 = fileSeverityScore details f := by
        rw [← hscore f, scoreAt, scoreOfInner, hval]
      have hguard : 3 ≤ sumVals (removeKey v "_severity_score") ∨
          10 ≤ lookupD v "_severity_score" 0 := by
        rw [e1, e2]
        exact hrhs
      refine ⟨{ file := f, issues := removeKey v "_severity_score"
                total_issues := sumVals (removeKey v "_severity_score")
                severity_score := lookupD v "_severity_score" 0
                recommendation := hotspotRec (removeKey v "_severity_score") }, ?_, rfl⟩
      unfold identify_security_hotspots
      dsimp only
      exact List.mem_filterMap.mpr ⟨(f, v), mem_pySort.mpr hv, by
        dsimp only
        rw [if_pos hguard]⟩
  · rw [List.pairwise_map]
    apply pairwise_filterMap_of_pairwise
      (S := fun h1 h2 : SecurityHotspot => h2.severity_score ≤ h1.severity_score)
      (R := fun a b : String × List (String × Int) =>
        (scoreDescLt b a) = false)
    · intro a b x y hab hfa hfb
      have hxa : x.severity_score = scoreOfInner a.2 := by
        dsimp only at hfa
        split_ifs at hfa with h1
        · obtain rfl := (Option.some.inj hfa).symm
          rfl
      have hyb : y.severity_score = scoreOfInner b.2 := by
        dsimp only at hfb
        split_ifs at hfb with h1
        · obtain rfl := (Option.some.inj hfb).symm
          rfl
      rw [hxa, hyb]
      simpa [scoreDescLt, Int.not_lt] using hab
    · exact pairwise_pySort
        (fun x y hxy => by
          simp only [scoreDescLt, decide_eq_true_eq, decide_eq_false_iff_not,
            Int.not_lt] at hxy ⊢
          omega)
        (fun x y z hxy hyz => by
          simp only [scoreDescLt, decide_eq_true_eq] at hxy hyz ⊢
          omega)
        _

/-- Witness finding list (the Scenario B of the specification): five
critical and seven medium findings on one file. -/
def c7details : List SecurityIssueRecord :=
  List.replicate 5 ⟨"a.php", "sql_injection", "critical"⟩ ++
    List.replicate 7 ⟨"a.php", "xss", "medium"⟩

theorem security_hotspot_threshold_and_ranking_witness :
    (∀ i ∈ c7details, i.type ≠ "_severity_score") ∧
      fileSeverityScore c7details "a.php" = 64 ∧
      ((∃ h ∈ identify_security_hotspots c7details, h.file = "a.php") ↔
        (3 ≤ fileFindingCount c7details "a.php" ∨
          10 ≤ fileSeverityScore c7details "a.php")) ∧
      ((identify_security_hotspots c7details).map
        SecurityHotspot.severity_score).Pairwise (fun a b => b ≤ a) :=
  ⟨by decide, by decide,
    (security_hotspot_threshold_and_ranking c7details (by decide)).1 "a.php",
    (security_hotspot_threshold_and_ranking c7details (by decide)).2⟩

/-! ### `load_all_data` (fact loader) -/

/-- One route record of `routes.json`, after the `.get` alternate-key
fallbacks (`target`/`handler`, `nestjs_path`/`pattern`/`path`,
`method` defaulting to `GET`). -/
structure RouteRecord where
  target : String
  path : String
  method : String
deriving DecidableEq, Repr

/-- One function entry of a file record; only its `sql_queries` strings
are consumed (dict-shaped queries are read through their `query`/`sql`
key upstream of this model). -/
structure FunctionData where
  sql_queries : List String
deriving DecidableEq, Repr

/-- One file record of the legacy-analysis document, after the `.get`
alternate-key fallbacks (`total_lines`/`lines`,
`cyclomatic_complexity`/`complexity`, `has_database`/`calls_db`);
`database_patterns` keeps each entry's `table` field and
`security_issues` the length of the stored list, the only parts read
downstream. -/
structure FileData where
  path : String
  total_lines : Int
  cyclomatic_complexity : Int
  functions : List FunctionData
  has_database : Bool
  security_issues : Nat
  database_patterns : List String
  sql_patterns : List String
deriving DecidableEq, Repr

/-- The mandatory legacy-analysis document. -/
structure LegacyAnalysisDoc where
  all_files : List FileData
  security_issues_detail : List SecurityIssueRecord
deriving DecidableEq, Repr

/-- The optional pre-extracted-services document: the `service_name`
fields and the optional `transport` (read with default `tcp`). -/
structure ExtractedServicesDoc where
  services : List String
  transport : Option String
deriving DecidableEq, Repr

/-- The `{}` default for `self.extracted_services`. -/
def emptyExtractedServices : ExtractedServicesDoc := ⟨[], none⟩

/-- State of one input document on disk: absent, present but not
parseable (malformed JSON), or parsed. -/
inductive DocSlot (α : Type) where
  | absent : DocSlot α
  | malformed : DocSlot α
  | parsed (doc : α) : DocSlot α
deriving DecidableEq, Repr

/-- How a load run can abort: the mandatory document is missing (the
method prints an error and returns `False`, exit code 1), or `json.load`
raises on a malformed document — the code has no handler, so the
exception propagates and kills the run. -/
inductive LoadFailure where
  | missingMandatoryInput : LoadFailure
  | uncaughtParseError (file : String) : LoadFailure
deriving DecidableEq, Repr

/-- The loaded state after a successful `load_all_data`. -/
structure LoadedData where
  legacy_analysis : LegacyAnalysisDoc
  routes_data : List RouteRecord
  database_schema : List String
  extracted_services : ExtractedServicesDoc
  service_contexts : List String
deriving DecidableEq, Repr

/-- Loading one optional document: absent means the default empty value
(the attribute keeps its `{}` initialization); present means `json.load`,
which raises — uncaught — on malformed content. -/
def loadOptional {α : Type} (slot : DocSlot α) (emptyVal : α) (fname : String) :
    Except LoadFailure α :=
  match slot with
  | .absent => .ok emptyVal
  | .malformed => .error (.uncaughtParseError fname)
  | .parsed d => .ok d

/-- The schema loop: `schema_inferred.json` first, `schema.json` second,
first existing file wins; a malformed existing file raises. -/
def loadSchema (inferred plain : DocSlot (List String)) :
    Except LoadFailure (List String) :=
  match inferred with
  | .parsed d => .ok d
  | .malformed => .error (.uncaughtParseError "schema_inferred.json")
  | .absent =>
    match plain with
    | .parsed d => .ok d
    | .malformed => .error (.uncaughtParseError "schema.json")
    | .absent => .ok []

/-- The per-service context loop over `output/services/*`: existing
context files are parsed (malformed ones raise), missing ones are
skipped. -/
def loadServiceContexts : List (String × DocSlot Unit) →
    Except LoadFailure (List String)
  | [] => .ok []
  | (nm, slot) :: rest =>
    match slot with
    | .absent => loadServiceContexts rest
    | .malformed => .error (.uncaughtParseError (nm ++ "/analysis/service_context.json"))
    | .parsed _ => (loadServiceContexts rest).map (fun l => nm :: l)

/-- `ArchitecturalSynthesizer.load_all_data`, over the on-disk state of
the five input document groups. -/
def load_all_data (legacy : DocSlot LegacyAnalysisDoc)
    (routes : DocSlot (List RouteRecord))
    (schemaInferred schemaPlain : DocSlot (List String))
    (services : DocSlot ExtractedServicesDoc)
    (svcContexts : List (String × DocSlot Unit)) :
    Except LoadFailure LoadedData :=
  match legacy with
  | .absent => .error .missingMandatoryInput
  | .malformed => .error (.uncaughtParseError "legacy_analysis.json")
  | .parsed lg => do
    let routesVal ← loadOptional routes [] "routes.json"
    let schemaVal ← loadSchema schemaInferred schemaPlain
    let servicesVal ← loadOptional services emptyExtractedServices "extracted_services.json"
    let ctxVal ← loadServiceContexts svcContexts
    .ok ⟨lg, routesVal, schemaVal, servicesVal, ctxVal⟩

/-- The empty legacy-analysis document (used by the counterexample). -/
def emptyLegacy : LegacyAnalysisDoc := ⟨[], []⟩

/-- C8 (counterexample to the literal claim): a routes document that
exists but fails to parse does abort the run — `json.load` raises and no
handler catches it — instead of being treated as empty. -/
theorem load_malformed_optional_aborts :
    load_all_data (.parsed emptyLegacy) .malformed .absent .absent .absent []
        = .error (.uncaughtParseError "routes.json") ∧
      (load_all_data (.parsed emptyLegacy) .malformed .absent .absent .absent
        []).isOk = false := by
  refine ⟨rfl, rfl⟩

/-- C8 (amended): optional documents that are absent are substituted with
empty structures and the run continues; only the absence of the mandatory
file-analysis document fails the load with `MissingMandatoryInput`; but a
document that exists and fails to parse — optional or not — raises an
uncaught parse error and aborts the run. -/
theorem load_input_handling (lg : LegacyAnalysisDoc)
    (routes : DocSlot (List RouteRecord)) (s1 s2 : DocSlot (List String))
    (sv : DocSlot ExtractedServicesDoc) (ctx : List (String × DocSlot Unit)) :
    load_all_data (.parsed lg) .absent .absent .absent .absent []
        = .ok ⟨lg, [], [], emptyExtractedServices, []⟩ ∧
      load_all_data .absent routes s1 s2 sv ctx = .error .missingMandatoryInput ∧
      load_all_data (.parsed lg) .malformed s1 s2 sv ctx
        = .error (.uncaughtParseError "routes.json") := by
  refine ⟨rfl, rfl, rfl⟩

/-! ### `correlate_files_to_tables` (correlator) -/

/-- The `[`"\x27]?` optional-quote fragment of the SQL regexes (the quote
characters kept out of the source text). -/
def quoteClass : String := "[`\"" ++ singleQuote ++ "]?"

/-- The five regular expressions of `_extract_tables_from_sql`, verbatim
(matching itself is delegated to the `findall` parameter, standing for
Python `re.findall`). -/
def sqlTablePatterns : List String :=
  ["from\\s+" ++ quoteClass ++ "(\\w+)" ++ quoteClass,
    "join\\s+" ++ quoteClass ++ "(\\w+)" ++ quoteClass,
    "into\\s+" ++ quoteClass ++ "(\\w+)" ++ quoteClass,
    "update\\s+" ++ quoteClass ++ "(\\w+)" ++ quoteClass,
    "delete\\s+from\\s+" ++ quoteClass ++ "(\\w+)" ++ quoteClass]

/-- The three structures `correlate_files_to_tables` fills:
`self.file_metrics`, `self.file_to_tables`, `self.table_to_files`. -/
structure CorrelationState where
  file_metrics : List (String × FileMetrics)
  file_to_tables : List (String × List String)
  table_to_files : List (String × List String)
deriving DecidableEq, Repr

/-- The paired insertions
`self.file_to_tables[filename].add(table)` and
`self.table_to_files[table].add(filename)` — always executed together. -/
def addTablePair (st : CorrelationState) (filename table : String) :
    CorrelationState :=
  { st with
    file_to_tables := mapAddToSet st.file_to_tables filename table
    table_to_files := mapAddToSet st.table_to_files table filename }

/-- `ArchitecturalSynthesizer._extract_tables_from_sql`: run every
pattern over the lowercased SQL and record each match that equals a known
table name (lowercased). -/
def _extract_tables_from_sql (findall : String → String → List String)
    (allTables : List String) (sql filename : String) (st : CorrelationState) :
    CorrelationState :=
  if sql == "" then st
  else
    sqlTablePatterns.foldl (fun st pattern =>
      (findall pattern (lowerStr sql)).foldl (fun st mt =>
        allTables.foldl (fun st table =>
          if mt == lowerStr table then addTablePair st filename table else st) st) st) st

/-- The per-file body of `correlate_files_to_tables`: store the metric
snapshot, record the declared database-pattern tables that are known, and
scan the function-level and file-level SQL strings. -/
def correlateFileStep (findall : String → String → List String)
    (allTables : List String) (st : CorrelationState) (fd : FileData) :
    CorrelationState :=
  let filename := basename fd.path
  let fmRec : FileMetrics :=
    ⟨fd.total_lines, fd.cyclomatic_complexity, fd.functions.length,
      fd.has_database, fd.security_issues⟩
  let st1 := { st with file_metrics := assocPut st.file_metrics filename fmRec }
  let st2 := fd.database_patterns.foldl (fun st table =>
    if table != "" && allTables.contains table then addTablePair st filename table
    else st) st1
  let st3 := fd.functions.foldl (fun st fn =>
    fn.sql_queries.foldl (fun st q =>
      _extract_tables_from_sql findall allTables q filename st) st) st2
  fd.sql_patterns.foldl (fun st q =>
    _extract_tables_from_sql findall allTables q filename st) st3

/-- `ArchitecturalSynthesizer.correlate_files_to_tables`, over the known
table names (the schema's `tables` keys) and the normalized file
records. -/
def correlate_files_to_tables (findall : String → String → List String)
    (allTables : List String) (files : List FileData) : CorrelationState :=
  files.foldl (correlateFileStep findall allTables) ⟨[], [], []⟩

/-- The correlation invariant: the two maps are inverse relations and
every recorded table is a known schema table. -/
def corrInv (allTables : List String) (st : CorrelationState) : Prop :=
  (∀ f t, t ∈ lookupD st.file_to_tables f [] ↔ f ∈ lookupD st.table_to_files t []) ∧
    (∀ f t, t ∈ lookupD st.file_to_tables f [] → t ∈ allTables)

theorem mem_lookupD_mapAddToSet (m : List (String × List String)) (k v k2 y : String) :
    y ∈ lookupD (mapAddToSet m k v) k2 [] ↔
      (k2 = k ∧ y = v) ∨ y ∈ lookupD m k2 [] := by
  by_cases h : k2 = k
  · subst h
    rw [show mapAddToSet m k2 v = assocUpdate m k2 [] (fun s => setAdd s v) from rfl]
    rw [lookupD_assocUpdate_self, mem_setAdd]
    constructor
    · rintro (hy | rfl)
      · exact Or.inr hy
      · exact Or.inl ⟨rfl, rfl⟩
    · rintro (⟨_, rfl⟩ | hy)
      · exact Or.inr rfl
      · exact Or.inl hy
  · rw [show mapAddToSet m k v = assocUpdate m k [] (fun s => setAdd s v) from rfl]
    rw [lookupD_assocUpdate_ne _ _ _ _ h]
    simp [h]

theorem corrInv_addTablePair {allTables : List String} {st : CorrelationState}
    (filename table : String) (ht : table ∈ allTables)
    (h : corrInv allTables st) : corrInv allTables (addTablePair st filename table) := by
  obtain ⟨hiff, hsub⟩ := h
  constructor
  · intro f t
    show t ∈ lookupD (mapAddToSet st.file_to_tables filename table) f [] ↔
      f ∈ lookupD (mapAddToSet st.table_to_files table filename) t []
    rw [mem_lookupD_mapAddToSet, mem_lookupD_mapAddToSet, hiff f t]
    tauto
  · intro f t hmem
    rw [show (addTablePair st filename table).file_to_tables
        = mapAddToSet st.file_to_tables filename table from rfl,
      mem_lookupD_mapAddToSet] at hmem
    rcases hmem with ⟨_, rfl⟩ | hold
    · exact ht
    · exact hsub f t hold

theorem foldl_preserve_mem {σ α : Type _} (P : σ → Prop) (g : σ → α → σ) :
    ∀ (l : List α), (∀ s a, a ∈ l → P s → P (g s a)) → ∀ s, P s → P (l.foldl g s) := by
  intro l
  induction l with
  | nil => exact fun _ s hs => hs
  | cons a as ih =>
    intro h s hs
    exact ih (fun s2 b hb => h s2 b (List.mem_cons_of_mem _ hb)) _
      (h s a (List.mem_cons_self _ _) hs)

theorem corrInv_extract {allTables : List String}
    (findall : String → String → List String) (sql filename : String)
    {st : CorrelationState} (h : corrInv allTables st) :
    corrInv allTables (_extract_tables_from_sql findall allTables sql filename st) := by
  unfold _extract_tables_from_sql
  split
  · exact h
  · refine foldl_preserve (corrInv allTables) _ ?_ _ _ h
    intro s pattern hp
    refine foldl_preserve (corrInv allTables) _ ?_ _ _ hp
    intro s2 mt hm
    refine foldl_preserve_mem (corrInv allTables) _ _ ?_ _ hm
    intro s3 table htmem hs3
    split
    · exact corrInv_addTablePair _ _ htmem hs3
    · exact hs3

theorem corrInv_fileStep {allTables : List String}
    (findall : String → String → List String) {st : CorrelationState}
    (fd : FileData) (h : corrInv allTables st) :
    corrInv allTables (correlateFileStep findall allTables st fd) := by
  unfold correlateFileStep
  dsimp only
  refine foldl_preserve (corrInv allTables) _ ?_ _ _
    (foldl_preserve (corrInv allTables) _ ?_ _ _
      (foldl_preserve (corrInv allTables) _ ?_ _ _ ⟨h.1, h.2⟩))
  · intro s q hs
    exact corrInv_extract findall _ _ hs
  · intro s fn hs
    refine foldl_preserve (corrInv allTables) _ ?_ _ _ hs
    intro s2 q hs2
    exact corrInv_extract findall _ _ hs2
  · intro s table hs
    split
    · rename_i hguard
      have hmem : table ∈ allTables := by
        have h2 := (Bool.and_eq_true ..).mp hguard
        simpa [List.contains, List.elem_iff] using h2.2
      exact corrInv_addTablePair _ _ hmem hs
    · exact hs

/-- C10: the `file_to_tables` and `table_to_files` maps built by
`correlate_files_to_tables` are inverse relations — a table is recorded
for a file exactly when the file is recorded for the table (every
insertion performs both updates together) — and every recorded table is
one of the schema's known table names (both insertion sites are guarded
by membership in `all_tables`). The regex matcher (`re.findall`) is an
external parameter `findall`; the property holds for every matcher. -/
theorem correlation_maps_inverse (findall : String → String → List String)
    (allTables : List String) (files : List FileData) :
    (∀ f t, t ∈ lookupD (correlate_files_to_tables findall allTables
          files).file_to_tables f [] ↔
        f ∈ lookupD (correlate_files_to_tables findall allTables
          files).table_to_files t []) ∧
      (∀ f t, t ∈ lookupD (correlate_files_to_tables findall allTables
          files).file_to_tables f [] → t ∈ allTables) := by
  have h : corrInv allTables (correlate_files_to_tables findall allTables files) := by
    unfold correlate_files_to_tables
    refine foldl_preserve (corrInv allTables) _ ?_ _ _ ?_
    · intro s fd hs
      exact corrInv_fileStep findall fd hs
    · constructor
      · intro f t
        simp [lookupD]
      · intro f t hmem
        simp [lookupD] at hmem
  exact ⟨h.1, h.2⟩

/-! ### `generate_synthesis` (assembly of the synthesis document, C9)

The synthesis dict is embedded as a JSON-like tree so that the whole
document — the value `json.dump` serializes byte-for-byte — is a single
Lean value. One caveat is recorded here rather than modelled: in two
spots the code serializes a Python `set` directly
(`list(set(...))` for `key_decisions[].affected_tables`, `list(...)` of a
set for `sample_correlations[].tables`); CPython iterates string sets in
a hash-seed-dependent order, which is a second source of run-to-run
byte differences beyond the timestamp. The embedding uses
first-occurrence order for those two lists. -/

/-- A JSON value. -/
inductive JVal where
  | str (s : String) : JVal
  | int (n : Int) : JVal
  | bool (b : Bool) : JVal
  | null : JVal
  | arr (items : List JVal) : JVal
  | obj (fields : List (String × JVal)) : JVal

/-- A JSON array of strings. -/
def jstrs (l : List String) : JVal := .arr (l.map .str)

/-- `dataclasses.asdict` of a `ModuleRecommendation` (field order of the
dataclass). -/
def moduleToJson (m : ModuleRecommendation) : JVal :=
  .obj [("name", .str m.name), ("rationale", .str m.rationale),
    ("routes", jstrs m.routes), ("tables", jstrs m.tables),
    ("php_files", jstrs m.php_files), ("complexity_score", .int m.complexity_score),
    ("security_issues", .int m.security_issues), ("lines_of_code", .int m.lines_of_code),
    ("priority", .int m.priority), ("dependencies", jstrs m.dependencies),
    ("is_microservice", .bool m.is_microservice),
    ("migration_risk", .str m.migration_risk),
    ("estimated_effort", .str m.estimated_effort)]

/-- `dataclasses.asdict` of a `DataCoupling`. -/
def couplingToJson (c : DataCoupling) : JVal :=
  .obj [("tables", jstrs c.tables), ("coupling_strength", .str c.coupling_strength),
    ("accessed_by_files", jstrs c.accessed_by_files),
    ("recommendation", .str c.recommendation)]

/-- `dataclasses.asdict` of a `SecurityHotspot`. -/
def hotspotToJson (h : SecurityHotspot) : JVal :=
  .obj [("file", .str h.file),
    ("issues", .obj (h.issues.map (fun p => (p.1, JVal.int p.2)))),
    ("total_issues", .int h.total_issues), ("severity_score", .int h.severity_score),
    ("recommendation", .str h.recommendation)]

/-- The dict literal of one migration step. -/
def stepToJson (s : MigrationStep) : JVal :=
  .obj [("step", .int (s.step : Int)), ("module", .str s.module),
    ("is_microservice", .bool s.is_microservice), ("risk", .str s.risk),
    ("effort", .str s.effort), ("dependencies", jstrs s.dependencies),
    ("routes_count", .int (s.routes_count : Int)),
    ("tables_count", .int (s.tables_count : Int)),
    ("security_issues", .int s.security_issues), ("rationale", .str s.rationale)]

/-- The in-memory state `generate_synthesis` reads from `self`. -/
structure SynthState where
  route_to_file : List (String × String)
  file_to_tables : List (String × List String)
  table_to_files : List (String × List String)
  database_schema_tables : List String
  extracted_services : ExtractedServicesDoc
  module_recommendations : List ModuleRecommendation
  data_couplings : List DataCoupling
  security_hotspots : List SecurityHotspot
  output_dir : String

/-- `ArchitecturalSynthesizer.generate_nx_structure`. -/
def generate_nx_structure (mods : List ModuleRecommendation)
    (services : ExtractedServicesDoc) : JVal :=
  let gateway_modules := (mods.filter (fun m => !m.is_microservice)).map
    ModuleRecommendation.name
  let microservices := (mods.filter (fun m => m.is_microservice)).map
    ModuleRecommendation.name
  let usedBy := "gateway" :: microservices.map (fun s => s ++ "-service")
  let transport := services.transport.getD "tcp"
  .obj [("apps", .obj (("gateway", .obj [("type", .str "http-api"),
      ("port", .int 3000), ("modules", jstrs gateway_modules),
      ("description", .str "Main HTTP API entry point")]) ::
      microservices.enum.map (fun p => (p.2 ++ "-service",
        JVal.obj [("type", .str "microservice"), ("transport", .str transport),
          ("port", .int (3001 + (p.1 : Int))),
          ("description", .str ("Microservice for " ++ p.2 ++ " domain"))])))),
    ("libs", .obj ([("shared-dto", JVal.obj [("purpose",
        .str "Shared DTOs, interfaces, types"), ("used_by", jstrs usedBy)]),
      ("database", JVal.obj [("purpose", .str "TypeORM configuration and entities"),
        ("used_by", jstrs usedBy)]),
      ("common", JVal.obj [("purpose",
        .str "Shared utilities, guards, interceptors"), ("used_by", jstrs usedBy)])] ++
      microservices.map (fun s => ("contracts/" ++ s ++ "-service",
        JVal.obj [("purpose",
          .str ("DTOs and message patterns for " ++ s ++ "-service")),
          ("used_by", jstrs ["gateway", s ++ "-service"])]))))]

/-- `ArchitecturalSynthesizer.generate_table_ownership`. -/
def generate_table_ownership (mods : List ModuleRecommendation) : JVal :=
  let ownership := mods.foldl (fun acc m =>
    if !m.tables.isEmpty then
      assocPut acc m.name (JVal.obj [("owned_tables", jstrs m.tables),
        ("module_type",
          .str (if m.is_microservice then "microservice" else "gateway-module"))])
    else acc) []
  let table_modules := mods.foldl (fun acc m =>
    m.tables.foldl (fun acc t => mapAppend acc t m.name) acc) []
  let shared := table_modules.filter (fun p => 1 < p.2.length)
  .obj [("by_module", .obj ownership),
    ("shared_tables", .obj (shared.map (fun p => (p.1, jstrs p.2)))),
    ("recommendation",
      .str "Shared tables require API calls between modules or event-based sync")]

/-- `ArchitecturalSynthesizer._estimate_total_effort`. -/
def _estimate_total_effort (mods : List ModuleRecommendation) : String :=
  let small := (mods.filter (fun m => m.estimated_effort == "small")).length
  let medium := (mods.filter (fun m => m.estimated_effort == "medium")).length
  let large := (mods.filter (fun m => m.estimated_effort == "large")).length
  let score := small * 1 + medium * 3 + large * 7
  if score ≤ 10 then "small (1-2 weeks)"
  else if score ≤ 25 then "medium (2-4 weeks)"
  else if score ≤ 50 then "large (1-2 months)"
  else "very large (2+ months)"

/-- `ArchitecturalSynthesizer._get_sample_correlations` (first five
route-to-file entries; the stored table list stands in for the
unordered set the code serializes). -/
def _get_sample_correlations (st : SynthState) : List JVal :=
  (st.route_to_file.take 5).map (fun p =>
    .obj [("route", .str p.1), ("file", .str p.2),
      ("tables", jstrs ((lookupD st.file_to_tables p.2 []).take 5))])

/-- Deduplicate keeping first occurrences: the embedding of `list(set(xs))`
(CPython's actual set order is hash-seed dependent). -/
def dedupFirst (xs : List String) : List String :=
  xs.foldl setAdd []

/-- `ArchitecturalSynthesizer._generate_key_decisions`. -/
def _generate_key_decisions (st : SynthState) : List JVal :=
  let mods := st.module_recommendations
  let micro := mods.filter (fun m => m.is_microservice)
  let d1 :=
    if 0 < micro.length then
      JVal.obj [("decision", .str "Hybrid Architecture"),
        ("rationale", .str ("Pre-extracted services will be microservices, remaining "
          ++ toString (mods.filter (fun m => !m.is_microservice)).length
          ++ " modules in gateway")),
        ("trade_offs",
          .str "More complex deployment but better isolation for extracted services")]
    else
      JVal.obj [("decision", .str "Modular Monolith"),
        ("rationale",
          .str "No pre-extracted services, start with modules in single gateway app"),
        ("trade_offs", .str "Simpler deployment, can extract services later if needed")]
  let tight := st.data_couplings.filter (fun c => c.coupling_strength == "tight")
  let d2 :=
    if !tight.isEmpty then
      [JVal.obj [("decision", .str "Shared Database for Tightly Coupled Tables"),
        ("rationale", .str ("Found " ++ toString tight.length
          ++ " tight data couplings - these tables should remain in shared database")),
        ("affected_tables", jstrs (dedupFirst
          ((tight.take 5).foldl (fun acc c => acc ++ c.tables) []))),
        ("trade_offs", .str "Simpler data consistency, but shared ownership")]]
    else []
  let critical := st.security_hotspots.filter (fun h => 20 ≤ h.severity_score)
  let d3 :=
    if !st.security_hotspots.isEmpty then
      if !critical.isEmpty then
        [JVal.obj [("decision", .str "Security-First Migration"),
          ("rationale", .str ("Found " ++ toString critical.length
            ++ " critical security hotspots that must be addressed")),
          ("affected_files", jstrs (critical.map SecurityHotspot.file)),
          ("action",
            .str "Migrate and fix these files first regardless of module priority")]]
      else []
    else []
  let d4 :=
    match mods.find? (fun m => m.name == "auth") with
    | some _ =>
      [JVal.obj [("decision", .str "Auth Module First"),
        ("rationale", .str "Auth module is foundation for all protected routes"),
        ("implementation",
          .str "JWT-based auth with guards, migrate PHP sessions to JWT tokens")]]
    | none => []
  d1 :: (d2 ++ d3 ++ d4)

/-- `ArchitecturalSynthesizer.generate_synthesis`: the complete synthesis
document, with the `datetime.now().isoformat()` timestamp passed in as
the explicit clock value `now`. -/
def generate_synthesis (st : SynthState) (now : String) : JVal :=
  let mods := st.module_recommendations
  let migration_order := compute_migration_order mods
  .obj [
    ("_meta", .obj [
      ("description",
        .str "Architectural synthesis - intelligent analysis of gathered data"),
      ("generated_at", .str now),
      ("source_analysis", .str st.output_dir),
      ("version", .str "1.0")]),
    ("summary", .obj [
      ("total_modules", .int (mods.length : Int)),
      ("total_microservices",
        .int ((mods.filter (fun m => m.is_microservice)).length : Int)),
      ("total_gateway_modules",
        .int ((mods.filter (fun m => !m.is_microservice)).length : Int)),
      ("total_routes", .int ((mods.map (fun m => m.routes.length)).sum : Int)),
      ("total_tables", .int (st.database_schema_tables.length : Int)),
      ("total_security_issues", .int (mods.map (fun m => m.security_issues)).sum),
      ("high_risk_modules", jstrs ((mods.filter
        (fun m => m.migration_risk == "high")).map ModuleRecommendation.name)),
      ("estimated_total_effort", .str (_estimate_total_effort mods))]),
    ("module_recommendations", .arr (mods.map moduleToJson)),
    ("migration_order", .arr (migration_order.map stepToJson)),
    ("nx_structure", generate_nx_structure mods st.extracted_services),
    ("data_architecture", .obj [
      ("table_ownership", generate_table_ownership mods),
      ("data_couplings", .arr ((st.data_couplings.take 20).map couplingToJson)),
      ("coupling_summary", .obj [
        ("tight", .int ((st.data_couplings.filter
          (fun c => c.coupling_strength == "tight")).length : Int)),
        ("moderate", .int ((st.data_couplings.filter
          (fun c => c.coupling_strength == "moderate")).length : Int)),
        ("loose", .int ((st.data_couplings.filter
          (fun c => c.coupling_strength == "loose")).length : Int))])]),
    ("security_analysis", .obj [
      ("hotspots", .arr ((st.security_hotspots.take 10).map hotspotToJson)),
      ("total_hotspots", .int (st.security_hotspots.length : Int)),
      ("critical_files", jstrs ((st.security_hotspots.filter
        (fun h => 20 ≤ h.severity_score)).map SecurityHotspot.file)),
      ("recommendation",
        .str "Address security hotspots early in migration to prevent vulnerability propagation")]),
    ("correlations", .obj [
      ("route_to_file_count", .int (st.route_to_file.length : Int)),
      ("files_with_db_access", .int (st.file_to_tables.length : Int)),
      ("tables_with_file_access", .int (st.table_to_files.length : Int)),
      ("sample_correlations", .arr (_get_sample_correlations st))]),
    ("key_decisions", .arr (_generate_key_decisions st))]

/-- Replace the `_meta.generated_at` value with `null` (for comparing two
synthesis documents up to the embedded timestamp). -/
def setGeneratedAtNull (j : JVal) : JVal :=
  match j with
  | .obj (("_meta", .obj metaFields) :: rest) =>
    .obj (("_meta", .obj (metaFields.map
      (fun p => if p.1 == "generated_at" then (p.1, JVal.null) else p))) :: rest)
  | other => other

/-- Extract the `_meta.generated_at` value of a synthesis document. -/
def generatedAtOf (j : JVal) : Option JVal :=
  match j with
  | .obj fields =>
    match fields.find? (fun p => p.1 == "_meta") with
    | some (_, .obj metaFields) =>
      (metaFields.find? (fun p => p.1 == "generated_at")).map Prod.snd
    | _ => none
  | _ => none

/-- C9 (amended): with the clock value factored out, the synthesis
document is a pure function of the loaded state: two runs on the same
state agree on every byte except the `_meta.generated_at` timestamp.
(Beyond the timestamp, the only other run-to-run instability of the
Python code is the hash-seed-dependent iteration order of the two
serialized sets noted above; the embedding fixes those to first-occurrence
order.) -/
theorem synthesis_deterministic_up_to_timestamp (st : SynthState) (t1 t2 : String) :
    setGeneratedAtNull (generate_synthesis st t1)
      = setGeneratedAtNull (generate_synthesis st t2) := rfl

/-- The empty synthesis state for the counterexample. -/
def c9state : SynthState :=
  ⟨[], [], [], [], emptyExtractedServices, [], [], [], "./output"⟩

/-- C9 (counterexample to the literal claim): two runs on identical
inputs that differ only in the wall clock embed different
`_meta.generated_at` strings, so the synthesis output is not
byte-identical across runs. -/
theorem synthesis_not_byte_identical :
    generatedAtOf (generate_synthesis c9state "2024-01-01T00:00:00")
        = some (.str "2024-01-01T00:00:00") ∧
      generatedAtOf (generate_synthesis c9state "2024-01-01T00:00:01")
        = some (.str "2024-01-01T00:00:01") ∧
      generate_synthesis c9state "2024-01-01T00:00:00"
        ≠ generate_synthesis c9state "2024-01-01T00:00:01" := by
  refine ⟨rfl, rfl, ?_⟩
  intro h
  have h2 := congrArg generatedAtOf h
  rw [show generatedAtOf (generate_synthesis c9state "2024-01-01T00:00:00")
      = some (.str "2024-01-01T00:00:00") from rfl] at h2
  rw [show generatedAtOf (generate_synthesis c9state "2024-01-01T00:00:01")
      = some (.str "2024-01-01T00:00:01") from rfl] at h2
  injection h2 with h3
  injection h3 with h4
  exact absurd h4 (by decide)
